import Mathlib

/-!
# Verification of the news ingestion pipeline (backend/app/services)

Shallow embedding, in Lean 4, of the parts of the repository's ingestion
pipeline that the frozen claims talk about:

* `SimilarityService` (`similarity_service.py`) and its verbatim copy inside
  `DedupGroupService` (`dedup_group_service.py`): title normalization,
  Jaccard similarity, Levenshtein distance/similarity, match score.
* `DedupGroupService.assign_group_id` (`dedup_group_service.py`): grouping of
  near-duplicate articles against group representatives only.
* `DedupStage.process` (`pipeline/dedup_stage.py`) with the persisted-store
  hash lookup.
* `DedupService.normalize_url` / `create_hash` (`dedup_service.py`).
* `TranslateStage.process` (`pipeline/translate_stage.py`) together with the
  `TranslateService` client-absent code paths (`translate_service.py`).
* The `PipelineContext` dataclass field list (`pipeline/base_stage.py`).
* `FetchEngine.run_all` (`fetch_engine.py`).

Modelling conventions:

* Python `float` scores are modelled as `ℚ`; every score in the source is a
  ratio of small integers and every threshold comparison in the claims is far
  from the region where binary rounding of `0.85`/`0.80` could flip a verdict.
* Python strings are Lean `String`s (sequences of Unicode code points, the
  same data model as Python `str`); `str.lower()` is modelled as ASCII
  case-mapping (`Char.toLower`).  The only places `lower()` is applied are
  tokenisation — where every non-`[a-z0-9]` character, cased or not, is a
  separator, so non-ASCII case-mapping cannot change the token list — and the
  raw-title Levenshtein fallback and keyword matching, whose claim instances
  are ASCII.
* Timestamps (`published_at`) are modelled as integers counted in hours, so
  `timedelta(hours=24)` is the integer `24`.
* Dictionaries flowing through the pipeline are modelled as a record `Item`
  with one field per key the embedded stages read or write; a missing key is
  an `Option.none` or (for `url_hash`, where the source only ever tests
  truthiness) the empty string.
-/

set_option autoImplicit false

/-- Division on `ℚ` written through `Rat.divInt` so that it evaluates by
kernel reduction (the library's `Rat.div` is `@[irreducible]`); `ratDiv_eq`
below proves it equal to `/`, including the `x / 0 = 0` convention. -/
def ratDiv (a b : ℚ) : ℚ := Rat.divInt (a.num * b.den) (b.num * a.den)

/-- Subtraction on `ℚ` written through `Rat.divInt` so that it evaluates by
kernel reduction; `ratSub_eq` below proves it equal to `-`. -/
def ratSub (a b : ℚ) : ℚ :=
  Rat.divInt (a.num * b.den - b.num * a.den) (a.den * b.den)

/-- ASCII lower-casing of one character (`'A'..'Z'` ↦ `'a'..'z'`), the
restriction of Python's `str.lower` to ASCII. -/
def pyChrLower (c : Char) : Char := c.toLower

/-- Python `str.lower`, restricted to ASCII case-mapping (see header note). -/
def pyLower (s : String) : String := String.mk (s.data.map pyChrLower)

/-- The character class `[a-z0-9]` used by both the tokeniser's separator
regex `[^a-z0-9]+` and the keyword filter's word-boundary lookarounds. -/
def isAlnumLower (c : Char) : Bool :=
  (('a' ≤ c && c ≤ 'z') || ('0' ≤ c && c ≤ '9'))

/-- One pass of `re.split(r"[^a-z0-9]+", s)`: maximal runs of characters
outside `[a-z0-9]` separate tokens; a leading or trailing run contributes an
empty token, exactly as `re.split` does.  `inDelim` records whether the scan
is inside a separator run, `acc` is the current token reversed. -/
def splitRunsGo (inDelim : Bool) (acc : List Char) : List Char → List (List Char)
  | [] => [acc.reverse]
  | c :: rest =>
    if isAlnumLower c then
      if inDelim then splitRunsGo false [c] rest
      else splitRunsGo false (c :: acc) rest
    else
      if inDelim then splitRunsGo true [] rest
      else acc.reverse :: splitRunsGo true [] rest

/-- Embeds `re.split(r"[^a-z0-9]+", s)` on the characters of `s`. -/
def splitNonAlnum (s : String) : List String :=
  (splitRunsGo false [] s.data).map (fun cs => String.mk cs)

namespace SimilarityService

/-- Embeds `SimilarityService.STOPWORDS` (and the identical
`DedupGroupService.STOPWORDS`). -/
def STOPWORDS : List String :=
  ["a", "an", "the", "and", "or", "to", "for", "of", "in", "on", "at",
   "with", "by", "from", "as", "is", "are", "be", "this", "that", "will"]

/-- Embeds `SimilarityService.normalize_title`: lower-case, split on runs of
non-alphanumeric characters, drop empty tokens, stop words and tokens shorter
than 2 characters. -/
def normalize_title (title : String) : List String :=
  (splitNonAlnum (pyLower title)).filter
    (fun tok => !(tok = "" || STOPWORDS.contains tok || tok.length < 2))

/-- Embeds `SimilarityService.jaccard_similarity` on token lists: 1 when both are
empty, 0 when exactly one is empty, otherwise `|A ∩ B| / |A ∪ B|` on the
underlying sets. -/
def jaccard_similarity (tokens_a tokens_b : List String) : ℚ :=
  if tokens_a = [] ∧ tokens_b = [] then 1
  else if tokens_a = [] ∨ tokens_b = [] then 0
  else ratDiv ((tokens_a.toFinset ∩ tokens_b.toFinset).card : ℚ)
       ((tokens_a.toFinset ∪ tokens_b.toFinset).card : ℚ)

/-- The Wagner–Fischer table of `SimilarityService.levenshtein_ratio`: the
source fills `dp[i][j]` (edit distance between length-`i` and length-`j`
prefixes) with `dp[i][j] = min(dp[i-1][j]+1, dp[i][j-1]+1, dp[i-1][j-1]+cost)`;
this is the same recurrence written as structural recursion on the two
character lists. -/
def levDist : List Char → List Char → Nat
  | [], bs => bs.length
  | a :: as, [] => (a :: as).length
  | a :: as, b :: bs =>
      min (levDist as (b :: bs) + 1)
        (min (levDist (a :: as) bs + 1)
          (levDist as bs + (if a = b then 0 else 1)))
termination_by a b => a.length + b.length

/-- Embeds `SimilarityService.levenshtein_ratio`: 1 for equal texts, 0 when exactly
one is empty, otherwise `1 - distance / max(len_a, len_b)`. -/
def levenshteinSim (text_a text_b : String) : ℚ :=
  if text_a = text_b then 1
  else if text_a = "" ∨ text_b = "" then 0
  else ratSub 1 (ratDiv (levDist text_a.data text_b.data : ℚ)
      (max text_a.length text_b.length : ℚ))

/-- Threshold constant `JACCARD_THRESHOLD = 0.85`, shared by
`SimilarityService.__init__` defaults and `DedupGroupService`. -/
def JACCARD_THRESHOLD : ℚ := mkRat 85 100

/-- Threshold constant `JACCARD_NEAR_MIN = 0.80`. -/
def JACCARD_NEAR_MIN : ℚ := mkRat 80 100

/-- Threshold constant `LEVENSHTEIN_THRESHOLD = 0.85`. -/
def LEVENSHTEIN_THRESHOLD : ℚ := mkRat 85 100

/-- Embeds `SimilarityService.match_score` (identically
`DedupGroupService._match_score`): Jaccard above the high threshold is
accepted with that score; Jaccard in the near band falls back to the
Levenshtein similarity of the raw lower-cased titles, accepted only above its
own threshold; otherwise no score. -/
def match_score (title_a title_b : String) : Option ℚ :=
  let jaccard := jaccard_similarity (normalize_title title_a) (normalize_title title_b)
  if JACCARD_THRESHOLD ≤ jaccard then some jaccard
  else if JACCARD_NEAR_MIN ≤ jaccard ∧ jaccard < JACCARD_THRESHOLD then
    let ratio := levenshteinSim (pyLower title_a) (pyLower title_b)
    if LEVENSHTEIN_THRESHOLD ≤ ratio then some ratio else none
  else none

end SimilarityService

/-! ## `urllib.parse` primitives

The subset of `urlparse` / `parse_qs` / `urlencode` / `quote_plus` /
`unquote_plus` that `DedupService.normalize_url` and
`DedupGroupService.assign_group_id` rely on.  Modelled scope: URLs written as
`scheme://netloc...`; the `;`-parameter component of `urlparse` is not
separated (the source never reads it for these call sites of interest, which
pass `http(s)` URLs), and percent-escapes are decoded byte-for-byte (exact
for ASCII; a multi-byte UTF-8 escape sequence decodes to one character per
byte instead of one combined character). -/

/-- Split a character list at the first occurrence of `sep`; the second
component is `none` when `sep` does not occur. -/
def breakOnFirst (sep : Char) : List Char → List Char × Option (List Char)
  | [] => ([], none)
  | c :: rest =>
    if c = sep then ([], some rest)
    else
      let p := breakOnFirst sep rest
      (c :: p.1, p.2)

/-- Split a character list around the first occurrence of the pattern `pat`;
`none` when `pat` does not occur. -/
def breakOnSub (pat : List Char) : List Char → Option (List Char × List Char)
  | [] => if pat = [] then some ([], []) else none
  | c :: cs =>
    if pat.isPrefixOf (c :: cs) then some ([], (c :: cs).drop pat.length)
    else (breakOnSub pat cs).map (fun p => (c :: p.1, p.2))

/-- The result of `urllib.parse.urlparse`: scheme (lower-cased), network
location, path, query, fragment. -/
structure UrlParts where
  scheme : String
  netloc : String
  path : String
  query : String
  fragment : String
  deriving DecidableEq, Repr

/-- Embeds `urllib.parse.urlparse`, for the modelled scope described above: the
scheme is everything before the first `://` (lower-cased; if it contains
`/`, `?` or `#` the URL is treated as scheme-less, as Python does), the
netloc runs to the next `/`, `?` or `#`, the fragment starts at the first
`#` after the netloc, and the query at the first `?` before the fragment. -/
def urlparse (url : String) : UrlParts :=
  let parseTail (tail : List Char) (scheme netloc : String) : UrlParts :=
    let preFrag := (breakOnFirst '#' tail).1
    let frag := (breakOnFirst '#' tail).2
    let path := (breakOnFirst '?' preFrag).1
    let query := (breakOnFirst '?' preFrag).2
    ⟨scheme, netloc, String.mk path, String.mk (query.getD []),
     String.mk (frag.getD [])⟩
  match breakOnSub "://".data url.data with
  | none => parseTail url.data "" ""
  | some (schemeCs, rest) =>
    if schemeCs.any (fun c => c = '/' || c = '?' || c = '#') then
      parseTail url.data "" ""
    else
      let netloc := rest.takeWhile (fun c => !(c = '/' || c = '?' || c = '#'))
      let tail := rest.drop netloc.length
      parseTail tail (pyLower (String.mk schemeCs)) (String.mk netloc)

/-- Value of an ASCII hexadecimal digit. -/
def hexVal (c : Char) : Option Nat :=
  if '0' ≤ c ∧ c ≤ '9' then some (c.toNat - '0'.toNat)
  else if 'a' ≤ c ∧ c ≤ 'f' then some (c.toNat - 'a'.toNat + 10)
  else if 'A' ≤ c ∧ c ≤ 'F' then some (c.toNat - 'A'.toNat + 10)
  else none

/-- Embeds the `urllib.parse.unquote_plus` scan: `+` becomes a space, a valid `%XX`
escape becomes the byte's character, an invalid escape stays literal. -/
def unquotePlusGo : List Char → List Char
  | [] => []
  | '+' :: rest => ' ' :: unquotePlusGo rest
  | '%' :: a :: b :: rest =>
    match hexVal a, hexVal b with
    | some ha, some hb => Char.ofNat (16 * ha + hb) :: unquotePlusGo rest
    | _, _ => '%' :: unquotePlusGo (a :: b :: rest)
  | c :: rest => c :: unquotePlusGo rest

/-- Embeds `urllib.parse.unquote_plus` (byte-for-byte, see the section comment). -/
def pyUnquotePlus (s : String) : String := String.mk (unquotePlusGo s.data)

/-- Upper-case hexadecimal digit of `n < 16`, as emitted by `quote_plus`. -/
def hexDigit (n : Nat) : Char :=
  if n < 10 then Char.ofNat ('0'.toNat + n) else Char.ofNat ('A'.toNat + n - 10)

/-- UTF-8 encoding of one character, as the list of its byte values. -/
def utf8Bytes (c : Char) : List Nat :=
  let n := c.toNat
  if n < 0x80 then [n]
  else if n < 0x800 then [0xC0 + n / 0x40, 0x80 + n % 0x40]
  else if n < 0x10000 then
    [0xE0 + n / 0x1000, 0x80 + (n / 0x40) % 0x40, 0x80 + n % 0x40]
  else
    [0xF0 + n / 0x40000, 0x80 + (n / 0x1000) % 0x40,
     0x80 + (n / 0x40) % 0x40, 0x80 + n % 0x40]

/-- Embeds `urllib.parse.quote_plus` on one character: space becomes `+`, ASCII
alphanumerics and `_ . - ~` stay, everything else is percent-encoded per
UTF-8 byte with upper-case hex. -/
def quotePlusChar (c : Char) : List Char :=
  if c = ' ' then ['+']
  else if ('a' ≤ c && c ≤ 'z') || ('A' ≤ c && c ≤ 'Z') ||
      ('0' ≤ c && c ≤ '9') || c = '_' || c = '.' || c = '-' || c = '~' then [c]
  else (utf8Bytes c).foldr (fun b acc => '%' :: hexDigit (b / 16) :: hexDigit (b % 16) :: acc) []

/-- Embeds `urllib.parse.quote_plus`. -/
def pyQuotePlus (s : String) : String :=
  String.mk (s.data.foldr (fun c acc => quotePlusChar c ++ acc) [])

/-- Split a query string at every `&` (`parse_qsl`'s separator); empty
segments are preserved here and skipped by `parseSegment`. -/
def splitAmp : List Char → List (List Char)
  | [] => [[]]
  | c :: rest =>
    let r := splitAmp rest
    if c = '&' then [] :: r
    else
      match r with
      | [] => [[c]]
      | h :: t => (c :: h) :: t

/-- One `name=value` segment of `parse_qsl` with `keep_blank_values=False`:
an empty segment, a segment without `=`, or a blank value is dropped; name
and value are unquoted. -/
def parseSegment (seg : List Char) : Option (String × String) :=
  if seg = [] then none
  else
    match breakOnFirst '=' seg with
    | (_, none) => none
    | (k, some v) =>
      if v = [] then none
      else some (pyUnquotePlus (String.mk k), pyUnquotePlus (String.mk v))

/-- Embeds `urllib.parse.parse_qsl` with default arguments. -/
def parse_qsl (qs : String) : List (String × String) :=
  (splitAmp qs.data).filterMap parseSegment

/-- One step of rebuilding `parse_qs`'s dict: append the value to an
existing key's list, or append a fresh key at the end (Python dict
insertion order). -/
def upsertParam (acc : List (String × List String)) (kv : String × String) :
    List (String × List String) :=
  if (acc.map Prod.fst).contains kv.1 then
    acc.map (fun e => if e.1 = kv.1 then (e.1, e.2 ++ [kv.2]) else e)
  else acc ++ [(kv.1, [kv.2])]

/-- Regroup `parse_qsl` pairs into `parse_qs`'s dict of value lists; keys are
ordered by first appearance, exactly like a Python dict built by insertion. -/
def groupPairs (l : List (String × String)) : List (String × List String) :=
  l.foldl upsertParam []

/-- Embeds `urllib.parse.parse_qs` with default arguments. -/
def parse_qs (qs : String) : List (String × List String) :=
  groupPairs (parse_qsl qs)

/-- Embeds `urllib.parse.urlencode(..., doseq=True)` on a `parse_qs`-shaped dict. -/
def urlencode_doseq (params : List (String × List String)) : String :=
  String.intercalate "&"
    (params.foldr (fun kv acc =>
      kv.2.map (fun v => pyQuotePlus kv.1 ++ "=" ++ pyQuotePlus v) ++ acc) [])

/-- Python `str.rstrip("/")`: drop every trailing slash. -/
def rstripSlashes (s : String) : String :=
  String.mk ((s.data.reverse.dropWhile (fun c => c = '/')).reverse)

namespace DedupService

/-- Embeds `DedupService.TRACKING_PARAMS` (the allow-listed tracking query
parameters removed by URL normalization). -/
def TRACKING_PARAMS : List String :=
  ["utm_source", "utm_medium", "utm_campaign", "utm_content",
   "utm_term", "ref", "source", "fbclid", "gclid", "mc_cid",
   "mc_eid", "__s", "s_kwcid"]

/-- Embeds `DedupService.normalize_url`: parse the URL, drop tracking query
parameters (case-insensitively on the key), rebuild
`scheme://netloc path [?query]` — discarding params and fragment — and strip
trailing slashes. -/
def normalize_url (url : String) : String :=
  let parsed := urlparse url
  let query_params := parse_qs parsed.query
  let filtered_params :=
    query_params.filter (fun kv => !(TRACKING_PARAMS.contains (pyLower kv.1)))
  let base := parsed.scheme ++ "://" ++ parsed.netloc ++ parsed.path
  let normalized :=
    if filtered_params ≠ [] then
      let new_query := urlencode_doseq filtered_params
      if new_query ≠ "" then base ++ "?" ++ new_query else base
    else base
  rstripSlashes normalized

/-- Embeds `DedupService.create_hash` with the SHA-256 hex digest treated as an
opaque primitive `digest` (Python's `hashlib.sha256(...).hexdigest()`): the
first 16 characters of the digest of the normalized URL. -/
def create_hash_with (digest : String → String) (url : String) : String :=
  (digest (normalize_url url)).take 16

end DedupService

/-- Ampersand-joining of raw query segments, the inverse view of `splitAmp`
used to quantify over "URLs differing only by one query parameter". -/
def joinAmp : List String → String
  | [] => ""
  | [s] => s
  | s :: rest => s ++ "&" ++ joinAmp rest

/-- A structured URL `scheme://host path [?query]`, the quantification
domain of the URL-hash invariance claims: `query` is a list of raw
`name=value` segments. -/
def buildUrl (scheme host path : String) (query : List String) : String :=
  scheme ++ "://" ++ host ++ path ++
    (if query = [] then "" else "?" ++ joinAmp query)

/-- Well-formedness of the structured URL parts: the scheme carries none of
the delimiter characters, the host none of the netloc terminators, the path
starts with `/` (or is empty) and contains no query/fragment delimiter, and
every query segment is free of `&`, `#` and `?`. -/
def wfUrlParts (scheme host path : String) (query : List String) : Prop :=
  (∀ c ∈ scheme.data, c ≠ ':' ∧ c ≠ '/' ∧ c ≠ '?' ∧ c ≠ '#') ∧
  (∀ c ∈ host.data, c ≠ '/' ∧ c ≠ '?' ∧ c ≠ '#') ∧
  (path = "" ∨ path.data.head? = some '/') ∧
  (∀ c ∈ path.data, c ≠ '?' ∧ c ≠ '#') ∧
  (∀ s ∈ query, ∀ c ∈ s.data, c ≠ '&' ∧ c ≠ '#' ∧ c ≠ '?')

namespace DedupGroupService

/-- The slice of the persisted `FeedItem` row read by `assign_group_id`:
title, url, `published_at` (in hours, see header note), and the
`dedup_group_id` entry of the JSON `raw` bag (`none` when the bag has no
entry; the source also treats an empty-string entry as absent).  `id` is the
row's primary key, used to address in-place `raw` updates. -/
structure FeedItem where
  id : String
  title : String
  url : String
  published_at : Int
  rawGroup : Option String := none
  deriving DecidableEq, Repr

/-- The slice of the incoming `item_data` dict read by `assign_group_id`:
`url_hash` is the value filled in by the fetcher (empty string when the key
is missing or falsy). -/
structure ItemData where
  id : String
  title : String
  url : String
  published_at : Int
  url_hash : String
  deriving DecidableEq, Repr

/-- Embeds `DedupGroupService.WINDOW_HOURS = 24` (timestamps are modelled in
hours, so the `timedelta` is the integer 24). -/
def WINDOW_HOURS : Int := 24

/-- Extracts `urlparse(url).netloc`, the domain gate of `assign_group_id`. -/
def domainOf (url : String) : String := (urlparse url).netloc

/-- Stable insertion into a list sorted by ascending `published_at`. -/
def insertByPub (x : FeedItem) : List FeedItem → List FeedItem
  | [] => [x]
  | y :: ys =>
    if x.published_at ≤ y.published_at then x :: y :: ys
    else y :: insertByPub x ys

/-- The `ORDER BY published_at ASC` of the candidate query, as a stable
insertion sort (SQL leaves the order of ties unspecified; the model keeps
them in store order). -/
def sortByPublishedAt : List FeedItem → List FeedItem
  | [] => []
  | x :: xs => insertByPub x (sortByPublishedAt xs)

/-- The candidate query of `assign_group_id`: rows with
`published_at >= cutoff`, ordered oldest first. -/
def windowCandidates (db : List FeedItem) (cutoff : Int) : List FeedItem :=
  sortByPublishedAt (db.filter (fun c => cutoff ≤ c.published_at))

/-- The candidate partition loop of `assign_group_id`: skip candidates with
an empty title or url or a different domain; the first candidate carrying
each (truthy) group id becomes that group's representative, in first-seen
order (a Python dict); candidates without a group id are collected in order
as `ungrouped_items`. -/
def collectReps (domain : String) (cs : List FeedItem) :
    List (String × FeedItem) × List FeedItem :=
  cs.foldl (fun acc c =>
    if c.title = "" ∨ c.url = "" then acc
    else if domainOf c.url ≠ domain then acc
    else
      match c.rawGroup with
      | some gid =>
        if gid = "" then (acc.1, acc.2 ++ [c])
        else if (acc.1.map Prod.fst).contains gid then acc
        else (acc.1 ++ [(gid, c)], acc.2)
      | none => (acc.1, acc.2 ++ [c])) ([], [])

/-- The best-representative loop of `assign_group_id`: fold over the
representatives keeping the strictly highest score (initial best 0.0). -/
def bestRep (title : String) (reps : List (String × FeedItem)) :
    ℚ × Option String :=
  reps.foldl (fun best p =>
    match SimilarityService.match_score title p.2.title with
    | some score => if best.1 < score then (score, some p.1) else best
    | none => best) ((0 : ℚ), (none : Option String))

/-- Embeds `DedupGroupService._create_group_id`, modelled for items that carry a
nonempty `url_hash` (the claims' items have passed the Dedup stage, which
requires one; the source's fallbacks — hashing `url`, then a wall-clock
timestamp — fire only when `url_hash` is falsy, and the theorems below carry
the corresponding nonemptiness hypothesis). -/
def create_group_id (it : ItemData) : String := "group_" ++ it.url_hash

/-- Embeds `DedupGroupService.assign_group_id`.  Returns the assigned group id and
the updated store (step 2 of the source algorithm mutates the matched ungrouped
row's `raw` bag in place).  The incoming item's own `raw` bag update is
reflected by the returned group id. -/
def assign_group_id (db : List FeedItem) (it : ItemData) :
    String × List FeedItem :=
  if it.title = "" ∨ it.url = "" then (create_group_id it, db)
  else
    let domain := domainOf it.url
    let candidates := windowCandidates db (it.published_at - WINDOW_HOURS)
    let parts := collectReps domain candidates
    let best := bestRep it.title parts.1
    match best.2 with
    | some gid => (gid, db)
    | none =>
      match parts.2.find? (fun c =>
          (SimilarityService.match_score it.title c.title).isSome) with
      | some c =>
        let gid := create_group_id it
        (gid, db.map (fun x => if x.id = c.id then { x with rawGroup := some gid } else x))
      | none => (create_group_id it, db)

/-- One item flowing through the Grouping stage and then the Persist stage:
`assign_group_id` runs against the current store, and `PersistStage` then
writes the item with the `dedup_group_id` recorded in its `raw` bag. -/
def assignAndPersist (db : List FeedItem) (it : ItemData) :
    String × List FeedItem :=
  let r := assign_group_id db it
  (r.1, r.2 ++ [⟨it.id, it.title, it.url, it.published_at, some r.1⟩])

end DedupGroupService

/-! ## Pipeline data model -/

/-- The slice of the `item_data` dict that the embedded stages read or
write.  `url_hash` uses the empty string for a missing/falsy value (the
Dedup stage only ever tests its truthiness); the translation fields start
absent (`none`) and are written by the Translate stage (`translatedFlag`
models the internal `_translated` key, read back with `get("_translated",
False)`). -/
structure Item where
  id : String := ""
  title : String := ""
  summary : String := ""
  url_hash : String := ""
  title_ko : Option String := none
  summary_ko : Option String := none
  translatedFlag : Option Bool := none
  translation_status : Option String := none
  deriving DecidableEq, Repr

/-- Run context threaded through the pipeline stages, as the spec's Run
Context (§3).  The first seven fields embed the `PipelineContext` dataclass
of `pipeline/base_stage.py` minus the `db` session (the embedded stages take
their slice of the store as an explicit argument); `translation_required`
and `translation_dropped` are modelled from the spec — the repository's
tests and callers (`fetch_engine.py`, `test_translation_policy.py`) use
them, but the `src` dataclass does not declare them (see the claim about the
Persist stage). -/
structure PipelineContext where
  source_name : String
  items : List Item := []
  fetched : Nat := 0
  duplicates : Nat := 0
  filtered : Nat := 0
  translation_failed : Nat := 0
  saved : Nat := 0
  translation_required : Bool := false
  translation_dropped : Nat := 0
  deriving DecidableEq, Repr

/-- The declared field list of the `PipelineContext` dataclass exactly as it
stands in `pipeline/base_stage.py` lines 10–23. -/
def basePipelineContextFields : List String :=
  ["db", "source_name", "items", "fetched", "duplicates", "filtered",
   "translation_failed", "saved"]

/-- Python dataclass `__init__` keyword checking: the first keyword argument
that is not a declared field, `some k` modelling the raised
`TypeError: __init__() got an unexpected keyword argument`. -/
def unexpectedKeyword (fields kwargs : List String) : Option String :=
  kwargs.find? (fun k => !(fields.contains k))

namespace DedupStage

/-- The key-collection loop behind `hash_to_items` in `DedupStage.process`:
`acc` accumulates the distinct truthy `url_hash` values in first-occurrence
order (Python dict key order). -/
def hashKeysGo (acc : List String) : List Item → List String
  | [] => acc
  | it :: rest =>
    hashKeysGo
      (if it.url_hash = "" then acc
       else if acc.contains it.url_hash then acc
       else acc ++ [it.url_hash]) rest

/-- The `hash_to_items` key list of `DedupStage.process`. -/
def hashKeys (items : List Item) : List String := hashKeysGo [] items

/-- Modelled from the spec: `DedupService.get_existing_hashes`, the
persisted-store contract `existing_hashes(hash_list) -> set` (spec §6),
which `DedupStage.process` calls but which is absent from
`dedup_service.py` in `src`.  Returns the subset of `hashes` already
persisted, together with the number of store round-trips it used — one
batched query per call, per spec §4.2 ("queried once per run, batched — not
per item"). -/
def get_existing_hashes (store : List String) (hashes : List String) :
    List String × Nat :=
  (hashes.filter (fun h => store.contains h), 1)

/-- The filtering loop of `DedupStage.process`: items without a hash pass
through; a hash already persisted or already seen in this batch is dropped
and counted; a fresh hash is recorded as seen and its item kept.  Returns
the surviving items and the number of dropped duplicates. -/
def dedupLoop (existing seen : List String) : List Item → List Item × Nat
  | [] => ([], 0)
  | it :: rest =>
    if it.url_hash = "" then
      let r := dedupLoop existing seen rest
      (it :: r.1, r.2)
    else if existing.contains it.url_hash || seen.contains it.url_hash then
      let r := dedupLoop existing seen rest
      (r.1, r.2 + 1)
    else
      let r := dedupLoop existing (seen ++ [it.url_hash]) rest
      (it :: r.1, r.2)

/-- Embeds `DedupStage.process`.  The persisted store is its list of already
stored url-hashes; the second component counts the store queries the run
issued. -/
def process (store : List String) (ctx : PipelineContext) :
    PipelineContext × Nat :=
  let q := get_existing_hashes store (hashKeys ctx.items)
  let r := dedupLoop q.1 [] ctx.items
  ({ ctx with items := r.1, duplicates := ctx.duplicates + r.2 }, q.2)

end DedupStage

namespace TranslateService

/-- The external GPT provider held by `TranslateService` when an API key is
configured: the single-item call used by `translate_to_korean`, and one
chunk's provider round-trip together with `_parse_batch_response` (its JSON
parse and per-item Korean-signal validation), used by
`_translate_single_batch`.  An `Except.error` models a raised exception /
unparseable response. -/
structure Provider where
  single : String → String → Except String (String × String)
  batchChunk : List Item → Except String (List Item)

/-- Embeds a `TranslateService` instance: `client` is `none` exactly when
`OPENAI_API_KEY` is unset (`__init__` lines 27–34), i.e. the capability
reports itself unavailable. -/
structure Service where
  client : Option Provider

/-- One character of the `KOREAN_PATTERN` regex character class
`[가-힯ᄀ-ᇿ㄰-㆏]`. -/
def is_korean_char (c : Char) : Bool :=
  (0xac00 ≤ c.toNat && c.toNat ≤ 0xd7af) ||
  (0x1100 ≤ c.toNat && c.toNat ≤ 0x11ff) ||
  (0x3130 ≤ c.toNat && c.toNat ≤ 0x318f)

/-- Embeds `TranslateService.is_korean_text`: the regex search succeeds iff
some character is Korean (empty text gives `false`). -/
def is_korean_text (s : String) : Bool := s.data.any is_korean_char

/-- Embeds `TranslateService.translate_to_korean`: without a client the
originals are returned unchanged; with one, a raised provider error is
caught and the originals returned. -/
def translate_to_korean (svc : Service) (title summary : String) :
    String × String :=
  match svc.client with
  | none => (title, summary)
  | some p =>
    match p.single title summary with
    | .ok r => r
    | .error _ => (title, summary)

/-- Embeds `TranslateService.translate_single_item`: translate, overwrite
title and summary, and set `_translated` by the Korean-signal check of the
resulting title. -/
def translate_single_item (svc : Service) (it : Item) : Item :=
  let r := translate_to_korean svc it.title it.summary
  { it with title := r.1, summary := r.2,
            translatedFlag := some (is_korean_text r.1) }

/-- Embeds `_translate_single_batch` for a deterministic provider model: the
`MAX_RETRIES` loop over an identical call collapses to one attempt; a failed
chunk is marked entirely untranslated (lines 269–272). -/
def translate_single_batch (p : Provider) (batch : List Item) : List Item :=
  match p.batchChunk batch with
  | .ok res => res
  | .error _ => batch.map (fun it => { it with translatedFlag := some false })

/-- Chunking by `BATCH_SIZE = 15` (`range(0, len(items), self.BATCH_SIZE)`). -/
def chunks15 : List Item → List (List Item)
  | [] => []
  | x :: xs => (x :: xs).take 15 :: chunks15 (xs.drop 14)
termination_by l => l.length
decreasing_by
  simp only [List.length_drop, List.length_cons]
  omega

/-- Embeds `TranslateService.translate_batch_sync`: without a client (or
without items) every item is marked untranslated with no provider call;
otherwise the batch is processed chunk by chunk. -/
def translate_batch_sync (svc : Service) (items : List Item) : List Item :=
  match svc.client with
  | none => items.map (fun it => { it with translatedFlag := some false })
  | some p =>
    if items = [] then items.map (fun it => { it with translatedFlag := some false })
    else (chunks15 items).foldr (fun b acc => translate_single_batch p b ++ acc) []

end TranslateService

namespace TranslateStage

/-- Embeds the `KOREAN_SOURCES` allow-list of `translate_stage.py`. -/
def KOREAN_SOURCES : List String := ["coindeskkorea", "blockmedia", "tokenpost"]

/-- Embeds `TranslateStage.process`.  `translator` is the optional
`TranslateService` the stage was constructed with.  In the pure model the
embedded `translate_batch_sync` is total, so the stage's
batch-exception branch (lines 41–47) has no inhabitant; provider-level
errors surface through `Provider`'s `Except` results, which the service
embedding catches exactly where the source does. -/
def process (translator : Option TranslateService.Service)
    (ctx : PipelineContext) : PipelineContext :=
  match translator with
  | none => ctx
  | some svc =>
    if ctx.items = [] then ctx
    else if KOREAN_SOURCES.contains ctx.source_name then
      { ctx with items := ctx.items.map (fun it =>
          { it with title_ko := some it.title, summary_ko := some it.summary,
                    translatedFlag := some true,
                    translation_status := some "skipped" }) }
    else
      let items1 := TranslateService.translate_batch_sync svc ctx.items
      let items2 := items1.map (fun it =>
        if it.translatedFlag.getD false then it
        else TranslateService.translate_single_item svc it)
      let nFailed := items2.countP (fun it => !(it.translatedFlag.getD false))
      let items3 := items2.map (fun it =>
        if it.translatedFlag.getD false then
          { it with translation_status := some "ok" }
        else { it with translation_status := some "failed" })
      { ctx with items := items3,
                 translation_failed := ctx.translation_failed + nFailed }

end TranslateStage

namespace FetchEngine

/-- The per-source statistics the stage loop leaves on the context, read
back by `_process_fetched_items` lines 252–256. -/
structure PStats where
  duplicates : Nat := 0
  filtered : Nat := 0
  translation_failed : Nat := 0
  translation_dropped : Nat := 0
  saved : Nat := 0
  deriving DecidableEq, Repr

/-- The value returned by the `fetch_only` closures of `run_all`
(lines 136–154): source name, fetched items, and the stringified exception
if the fetch raised. -/
structure FetchResult where
  source : String
  items : List Item
  error : Option String
  deriving DecidableEq, Repr

/-- The per-source result dict built by `_process_fetched_items`. -/
structure SourceResult where
  success : Bool
  fetched : Nat
  saved : Nat
  duplicates : Nat
  filtered : Nat
  translation_failed : Nat
  translation_dropped : Nat
  error : Option String
  deriving DecidableEq, Repr

/-- One partial-update map passed to the progress callback; each call site
fills only some keys. -/
structure ProgressUpdate where
  sources_total : Option Nat := none
  current_source : Option String := none
  sources_completed : Option Nat := none
  items_fetched : Option Nat := none
  items_saved : Option Nat := none
  items_duplicates : Option Nat := none
  deriving DecidableEq, Repr

/-- The run summary dict of `run_all` (timestamps omitted: wall-clock
strings carry no verified content). -/
structure RunSummary where
  success : Bool
  total_fetched : Nat
  total_saved : Nat
  total_duplicates : Nat
  total_filtered : Nat
  total_translation_failed : Nat
  total_translation_dropped : Nat
  sources : List (String × SourceResult)
  deriving DecidableEq, Repr

/-- The progress sink: an effectful callback that may raise
(`Except.error`), exactly the failure mode the claims quantify over. -/
def ProgressSink : Type := ProgressUpdate → Except String Unit

/-- An `await progress_callback(...)` site: no-op when no callback was
passed; otherwise the callback runs unguarded — `run_all` wraps none of its
invocations in `try`. -/
def emitProgress (sink : Option ProgressSink) (u : ProgressUpdate) :
    Except String Unit :=
  match sink with
  | none => Except.ok ()
  | some cb => cb u

/-- Embeds the `fetch_only` closure: a raising fetch is caught and becomes
`(source, [], error)`; a successful one becomes `(source, items, none)`. -/
def fetch_only (source : String) (outcome : Except String (List Item)) :
    FetchResult :=
  match outcome with
  | .ok items => ⟨source, items, none⟩
  | .error e => ⟨source, [], some e⟩

/-- Embeds `_process_fetched_items`: a fetch error short-circuits to a
failed result; otherwise the stage loop (abstracted as the `pipeline`
argument, which the source runs inside `try`) either yields the context's
counters with `success=True` or its exception is caught into a failed
result.  Source-status persistence is a store write with no bearing on the
returned dict. -/
def process_fetched_items (pipeline : String → List Item → Except String PStats)
    (source : String) (items : List Item) (fetchError : Option String) :
    SourceResult :=
  match fetchError with
  | some e => ⟨false, items.length, 0, 0, 0, 0, 0, some e⟩
  | none =>
    match pipeline source items with
    | .ok st => ⟨true, items.length, st.saved, st.duplicates, st.filtered,
                 st.translation_failed, st.translation_dropped, none⟩
    | .error e => ⟨false, items.length, 0, 0, 0, 0, 0, some e⟩

/-- The initial `results` dict of `run_all` (lines 114–125). -/
def initSummary : RunSummary := ⟨true, 0, 0, 0, 0, 0, 0, []⟩

/-- Folding one per-source result into the run summary
(lines 177–187). -/
def accumulate (acc : RunSummary) (source : String) (sr : SourceResult) :
    RunSummary :=
  { acc with
    sources := acc.sources ++ [(source, sr)],
    total_fetched := acc.total_fetched + sr.fetched,
    total_saved := acc.total_saved + sr.saved,
    total_duplicates := acc.total_duplicates + sr.duplicates,
    total_filtered := acc.total_filtered + sr.filtered,
    total_translation_failed := acc.total_translation_failed + sr.translation_failed,
    total_translation_dropped := acc.total_translation_dropped + sr.translation_dropped,
    success := if sr.success then acc.success else false }

/-- The sequential per-source processing loop of `run_all`
(lines 163–195), with its two unguarded progress calls per source. -/
def runLoop (pipeline : String → List Item → Except String PStats)
    (sink : Option ProgressSink) :
    List FetchResult → Nat → RunSummary → Except String RunSummary
  | [], _, acc => Except.ok acc
  | fr :: rest, i, acc => do
    emitProgress sink { current_source := some fr.source, sources_completed := some i }
    let sr := process_fetched_items pipeline fr.source fr.items fr.error
    let acc := accumulate acc fr.source sr
    emitProgress sink
      { sources_completed := some (i + 1), items_fetched := some acc.total_fetched,
        items_saved := some acc.total_saved,
        items_duplicates := some acc.total_duplicates }
    runLoop pipeline sink rest (i + 1) acc

/-- Embeds `FetchEngine.run_all`.  `sources` pairs each registered source
with the outcome of its (concurrently awaited) fetch call — the
quantification domain of the claims; `pipeline` abstracts the per-source
stage loop run inside `_process_fetched_items`'s `try`; `sink` is the
optional progress callback. -/
def run_all (sources : List (String × Except String (List Item)))
    (pipeline : String → List Item → Except String PStats)
    (sink : Option ProgressSink) : Except String RunSummary := do
  emitProgress sink { sources_total := some sources.length }
  runLoop pipeline sink (sources.map (fun p => fetch_only p.1 p.2)) 0 initSummary

end FetchEngine

namespace BitcoinFilter

/-- Embeds `BITCOIN_ONLY_SOURCES` of `bitcoin_filter_stage.py` (the exempt
allow-list). -/
def BITCOIN_ONLY_SOURCES : List String :=
  ["bitcoinmagazine", "optech", "theminermag"]

/-- Embeds `BITCOIN_KEYWORDS` (topic keywords). -/
def BITCOIN_KEYWORDS : List String :=
  ["bitcoin", "btc", "비트코인", "satoshi", "사토시", "lightning",
   "lightning network", "라이트닝", "라이트닝 네트워크", "halving",
   "halvening", "반감기", "mempool", "hashrate", "hash rate", "채굴",
   "mining", "miner", "utxo", "taproot", "segwit", "ordinals",
   "inscriptions", "brc-20", "bitcoin core", "비트코인 코어"]

/-- Embeds `ALTCOIN_KEYWORDS` (off-topic keywords). -/
def ALTCOIN_KEYWORDS : List String :=
  ["ethereum", "eth", "solana", "sol", "cardano", "ada", "xrp", "ripple",
   "dogecoin", "doge", "shiba", "polkadot", "dot", "avalanche", "avax",
   "polygon", "matic", "chainlink", "link", "litecoin", "ltc", "tron",
   "trx", "cosmos", "atom", "near", "sui", "aptos", "apt", "arbitrum",
   "arb", "optimism", "op token", "altcoin", "altcoins", "알트코인",
   "이더리움", "솔라나", "리플", "도지코인", "defi", "nft", "nfts",
   "airdrop", "ico", "ido", "meme coin", "memecoin", "밈코인"]

/-- Embeds `AD_SPAM_KEYWORDS` (spam markers). -/
def AD_SPAM_KEYWORDS : List String :=
  ["casino", "casinos", "betting", "gambling", "sportsbook", "slot",
   "jackpot", "poker", "promo code", "bonus code", "가입코드", "추천코드",
   "먹튀"]

/-- Python `str.strip()`: drop leading and trailing ASCII whitespace (the
keyword literals carry none, so this is exact for them). -/
def pyStrip (s : String) : String :=
  String.mk (((s.data.dropWhile (fun c => c.isWhitespace)).reverse.dropWhile
    (fun c => c.isWhitespace)).reverse)

/-- Embeds the `ASCII_WORD_RE` test `^[a-z0-9][a-z0-9\s\-]*$`: first
character alphanumeric, the rest alphanumeric, whitespace or `-`. -/
def isAsciiWordKey (s : String) : Bool :=
  match s.data with
  | [] => false
  | c :: rest =>
    isAlnumLower c &&
    rest.all (fun d => isAlnumLower d || d = ' ' || d = '\t' || d = '\n' ||
      d = '\x0b' || d = '\x0c' || d = '\r' || d = '-')

/-- Substring search (`key in normalized` on Python strings): does `key`
occur contiguously in the text? -/
def containsSub (key : List Char) : List Char → Bool
  | [] => key.isPrefixOf ([] : List Char)
  | c :: rest => key.isPrefixOf (c :: rest) || containsSub key rest

/-- One candidate match position for the word-boundary search
`(?<![a-z0-9])key(?![a-z0-9])`: the key occurs here, the previous character
(if any) is not alphanumeric, and the following character (if any) is not
alphanumeric. -/
def boundaryAt (key : List Char) (prev : Option Char) (text : List Char) : Bool :=
  key.isPrefixOf text &&
  (match prev with
   | none => true
   | some p => !(isAlnumLower p)) &&
  (match text.drop key.length with
   | [] => true
   | d :: _ => !(isAlnumLower d))

/-- Embeds `re.search` for the word-boundary pattern: scan every position of
the text. -/
def boundarySearch (key : List Char) (prev : Option Char) :
    List Char → Bool
  | [] => boundaryAt key prev []
  | c :: rest => boundaryAt key prev (c :: rest) || boundarySearch key (some c) rest

/-- Embeds `_keyword_hits`: pad the lower-cased text with one space on each
side, then collect every keyword (stripped and lower-cased) that matches —
with word boundaries when the key is ASCII-word-like, as a substring
otherwise.  The returned list enumerates the Python hit `set`: the source's
keyword sets are duplicate-free literals, so the list length is the set
size. -/
def keyword_hits (text : String) (keywords : List String) : List String :=
  let normalized := (" " ++ pyLower text ++ " ").data
  keywords.filterMap (fun kw =>
    let key := pyLower (pyStrip kw)
    if key = "" then none
    else if isAsciiWordKey key then
      if boundarySearch key.data none normalized then some key else none
    else
      if containsSub key.data normalized then some key else none)

/-- Embeds `is_bitcoin_related` of `bitcoin_filter_stage.py`. -/
def is_bitcoin_related (title summary source_name source_ref url : String) :
    Bool :=
  if BITCOIN_ONLY_SOURCES.contains source_name then true
  else
    let combined := title ++ " " ++ summary ++ " " ++ source_ref ++ " " ++ url
    let btc_hits := keyword_hits combined BITCOIN_KEYWORDS
    let alt_hits := keyword_hits combined ALTCOIN_KEYWORDS
    let ad_hits := keyword_hits combined AD_SPAM_KEYWORDS
    if ad_hits ≠ [] then false
    else if btc_hits = [] then false
    else if alt_hits ≠ [] ∧ btc_hits.length ≤ alt_hits.length then false
    else true

end BitcoinFilter

/-! ## Theorems -/

/-- Helper: `ratDiv` is ordinary division on `ℚ`. -/
theorem ratDiv_eq (a b : ℚ) : ratDiv a b = a / b := by
  rw [ratDiv, Rat.divInt_eq_div]
  rcases eq_or_ne b 0 with hb | hb
  · subst hb
    norm_num
  · have had : (a.den : ℚ) ≠ 0 := by
      exact_mod_cast a.den_nz
    have hbd : (b.den : ℚ) ≠ 0 := by
      exact_mod_cast b.den_nz
    have ha : (a.num : ℚ) = a * a.den := (div_eq_iff had).mp (Rat.num_div_den a)
    have hbn : (b.num : ℚ) = b * b.den := (div_eq_iff hbd).mp (Rat.num_div_den b)
    push_cast
    rw [ha, hbn]
    rw [div_eq_div_iff (by positivity) hb]
    ring

/-- Helper: `ratSub` is ordinary subtraction on `ℚ`. -/
theorem ratSub_eq (a b : ℚ) : ratSub a b = a - b := by
  rw [ratSub, Rat.divInt_eq_div]
  have had : (a.den : ℚ) ≠ 0 := by exact_mod_cast a.den_nz
  have hbd : (b.den : ℚ) ≠ 0 := by exact_mod_cast b.den_nz
  have ha : (a.num : ℚ) = a * a.den := (div_eq_iff had).mp (Rat.num_div_den a)
  have hbn : (b.num : ℚ) = b * b.den := (div_eq_iff hbd).mp (Rat.num_div_den b)
  push_cast
  field_simp
  rw [ha, hbn]
  ring

/-- Helper: the three similarity thresholds as plain fractions. -/
theorem jaccard_threshold_eq : SimilarityService.JACCARD_THRESHOLD = 85 / 100 := by
  rw [SimilarityService.JACCARD_THRESHOLD, Rat.mkRat_eq_div]
  norm_num

/-- Helper: the near-band lower threshold as a plain fraction. -/
theorem jaccard_near_min_eq : SimilarityService.JACCARD_NEAR_MIN = 80 / 100 := by
  rw [SimilarityService.JACCARD_NEAR_MIN, Rat.mkRat_eq_div]
  norm_num

/-- Helper: the Levenshtein threshold as a plain fraction. -/
theorem levenshtein_threshold_eq :
    SimilarityService.LEVENSHTEIN_THRESHOLD = 85 / 100 := by
  rw [SimilarityService.LEVENSHTEIN_THRESHOLD, Rat.mkRat_eq_div]
  norm_num

/-- Helper: a title's token list is a function of its lower-casing. -/
theorem normalize_title_congr {a b : String} (h : pyLower a = pyLower b) :
    SimilarityService.normalize_title a = SimilarityService.normalize_title b := by
  unfold SimilarityService.normalize_title splitNonAlnum
  rw [h]

/-- Helper: the empty title normalizes to no tokens. -/
theorem normalize_title_of_lower_empty {a : String} (h : pyLower a = "") :
    SimilarityService.normalize_title a = [] := by
  unfold SimilarityService.normalize_title splitNonAlnum
  rw [h]
  rfl

/-- Helper: Jaccard similarity of a token list with itself is 1. -/
theorem jaccard_self (t : List String) : SimilarityService.jaccard_similarity t t = 1 := by
  rcases eq_or_ne t [] with h | h
  · subst h; rfl
  · have hcard : ((t.toFinset.card : ℚ)) ≠ 0 := by
      have : t.toFinset.Nonempty := by
        match t, h with
        | x :: xs, _ => exact ⟨x, by simp⟩
      have := Finset.card_ne_zero.mpr this
      exact_mod_cast this
    simp only [SimilarityService.jaccard_similarity, Finset.inter_self,
      Finset.union_self]
    rw [if_neg (by simp [h]), if_neg (by simp [h]), ratDiv_eq]
    exact div_self hcard

/-- Helper: Jaccard similarity with an empty left token list is 0 or 1. -/
theorem jaccard_left_empty (tb : List String) :
    SimilarityService.jaccard_similarity [] tb = if tb = [] then 1 else 0 := by
  rcases eq_or_ne tb [] with h | h <;> simp [SimilarityService.jaccard_similarity, h]

/-- Helper: in the near band the two lower-cased titles are distinct and
nonempty, so the source's `levenshtein_ratio` takes its general branch. -/
theorem band_facts (a b : String)
    (h80 : 80 / 100 ≤ SimilarityService.jaccard_similarity
      (SimilarityService.normalize_title a) (SimilarityService.normalize_title b))
    (h85 : SimilarityService.jaccard_similarity
      (SimilarityService.normalize_title a) (SimilarityService.normalize_title b) < 85 / 100) :
    pyLower a ≠ pyLower b ∧ pyLower a ≠ "" ∧ pyLower b ≠ "" := by
  refine ⟨?_, ?_, ?_⟩
  · intro heq
    rw [normalize_title_congr heq, jaccard_self] at h85
    norm_num at h85
  · intro heq
    rw [normalize_title_of_lower_empty heq, jaccard_left_empty] at h80 h85
    rcases eq_or_ne (SimilarityService.normalize_title b) [] with hb | hb
    · rw [if_pos hb] at h85; norm_num at h85
    · rw [if_neg hb] at h80; norm_num at h80
  · intro heq
    have hsymm : ∀ ta tb : List String,
        SimilarityService.jaccard_similarity ta tb =
        SimilarityService.jaccard_similarity tb ta := by
      intro ta tb
      unfold SimilarityService.jaccard_similarity
      rw [Finset.inter_comm, Finset.union_comm]
      by_cases h1 : ta = [] <;> by_cases h2 : tb = [] <;> simp [h1, h2]
    rw [hsymm] at h80 h85
    rw [normalize_title_of_lower_empty heq, jaccard_left_empty] at h80 h85
    rcases eq_or_ne (SimilarityService.normalize_title a) [] with hb | hb
    · rw [if_pos hb] at h85; norm_num at h85
    · rw [if_neg hb] at h80; norm_num at h80

/-- Helper: for distinct nonempty texts the source's `levenshtein_ratio` is
exactly the formula `1 - distance / max(len_a, len_b)`. -/
theorem levenshteinSim_formula (la lb : String) (hne : la ≠ lb)
    (ha : la ≠ "") (hb : lb ≠ "") :
    SimilarityService.levenshteinSim la lb =
      1 - (SimilarityService.levDist la.data lb.data : ℚ) /
        (max la.length lb.length : ℚ) := by
  rw [SimilarityService.levenshteinSim, if_neg hne, if_neg (by simp [ha, hb]),
    ratSub_eq, ratDiv_eq]

/-- C4: for every pair of titles, `match_score` returns the Jaccard
similarity of their normalized token sets when that similarity is at least
0.85; when the Jaccard similarity lies in [0.80, 0.85) it returns the
normalized Levenshtein ratio `1 - distance / max(len_a, len_b)` of the raw
lower-cased titles provided that ratio is at least 0.85; in every other
case it returns no score (`none`), distinguished from a zero score. -/
theorem C4_match_score_cases (a b : String) :
    (85 / 100 ≤ SimilarityService.jaccard_similarity
        (SimilarityService.normalize_title a) (SimilarityService.normalize_title b) →
      SimilarityService.match_score a b =
        some (SimilarityService.jaccard_similarity
          (SimilarityService.normalize_title a) (SimilarityService.normalize_title b)))
    ∧ (80 / 100 ≤ SimilarityService.jaccard_similarity
          (SimilarityService.normalize_title a) (SimilarityService.normalize_title b) ∧
        SimilarityService.jaccard_similarity
          (SimilarityService.normalize_title a) (SimilarityService.normalize_title b) < 85 / 100 →
        (85 / 100 ≤ 1 - (SimilarityService.levDist (pyLower a).data (pyLower b).data : ℚ) /
            (max (pyLower a).length (pyLower b).length : ℚ) →
          SimilarityService.match_score a b =
            some (1 - (SimilarityService.levDist (pyLower a).data (pyLower b).data : ℚ) /
              (max (pyLower a).length (pyLower b).length : ℚ)))
        ∧ (1 - (SimilarityService.levDist (pyLower a).data (pyLower b).data : ℚ) /
            (max (pyLower a).length (pyLower b).length : ℚ) < 85 / 100 →
          SimilarityService.match_score a b = none))
    ∧ (SimilarityService.jaccard_similarity
        (SimilarityService.normalize_title a) (SimilarityService.normalize_title b) < 80 / 100 →
      SimilarityService.match_score a b = none) := by
  set jac := SimilarityService.jaccard_similarity
    (SimilarityService.normalize_title a) (SimilarityService.normalize_title b) with hjac
  refine ⟨?_, ?_, ?_⟩
  · intro h
    rw [SimilarityService.match_score, ← hjac, if_pos (by rw [jaccard_threshold_eq]; exact h)]
  · rintro ⟨h80, h85⟩
    obtain ⟨hne, ha, hb⟩ := band_facts a b h80 h85
    have hformula := levenshteinSim_formula (pyLower a) (pyLower b) hne ha hb
    constructor
    · intro hlev
      rw [SimilarityService.match_score, ← hjac,
        if_neg (by rw [jaccard_threshold_eq]; exact not_le.mpr h85),
        if_pos (by rw [jaccard_near_min_eq, jaccard_threshold_eq]; exact ⟨h80, h85⟩),
        hformula, if_pos (by rw [levenshtein_threshold_eq]; exact hlev)]
    · intro hlev
      rw [SimilarityService.match_score, ← hjac,
        if_neg (by rw [jaccard_threshold_eq]; exact not_le.mpr h85),
        if_pos (by rw [jaccard_near_min_eq, jaccard_threshold_eq]; exact ⟨h80, h85⟩),
        hformula, if_neg (by rw [levenshtein_threshold_eq]; exact not_le.mpr hlev)]
  · intro h
    have h85 : jac < 85 / 100 := lt_trans h (by norm_num)
    rw [SimilarityService.match_score, ← hjac,
      if_neg (by rw [jaccard_threshold_eq]; exact not_le.mpr h85),
      if_neg (by rw [jaccard_near_min_eq]; rintro ⟨h80, _⟩; exact absurd h (not_lt.mpr h80))]

/-- C4 witness: at the concrete titles `"aa bb cc dd ee ff gg"` and
`"aa bb cc dd ee ff"` the Jaccard similarity is 6/7 ≥ 0.85 and the score is
6/7. -/
theorem C4_match_score_cases_witness :
    SimilarityService.match_score "aa bb cc dd ee ff gg" "aa bb cc dd ee ff" =
      some (6 / 7) := by
  have h := (C4_match_score_cases "aa bb cc dd ee ff gg" "aa bb cc dd ee ff").1
  have hjac : SimilarityService.jaccard_similarity
      (SimilarityService.normalize_title "aa bb cc dd ee ff gg")
      (SimilarityService.normalize_title "aa bb cc dd ee ff") = mkRat 6 7 := by decide
  rw [hjac] at h
  have h67 : (mkRat 6 7 : ℚ) = 6 / 7 := by rw [Rat.mkRat_eq_div]; norm_num
  rw [h67] at h
  exact h (by norm_num)

/-- C10: any two titles with no surviving normalized token (for example two
titles written entirely in a non-Latin script) have Jaccard similarity 1.0
by definition and `match_score` returns 1.0, so the similarity engine always
treats them as a near-duplicate match, regardless of content. -/
theorem C10_empty_token_titles_always_match (a b : String)
    (ha : SimilarityService.normalize_title a = [])
    (hb : SimilarityService.normalize_title b = []) :
    SimilarityService.match_score a b = some 1 := by
  have hjac : SimilarityService.jaccard_similarity
      (SimilarityService.normalize_title a) (SimilarityService.normalize_title b) = 1 := by
    rw [ha, hb]
    rfl
  rw [SimilarityService.match_score, hjac,
    if_pos (by rw [jaccard_threshold_eq]; norm_num)]

/-- C10 witness: two entirely Korean titles with no shared content
normalize to empty token lists and match with score 1. -/
theorem C10_empty_token_titles_always_match_witness :
    SimilarityService.normalize_title "비트코인 급등" = [] ∧
    SimilarityService.normalize_title "완전 다른 제목" = [] ∧
    SimilarityService.match_score "비트코인 급등" "완전 다른 제목" = some 1 :=
  ⟨by decide, by decide,
   C10_empty_token_titles_always_match "비트코인 급등" "완전 다른 제목"
     (by decide) (by decide)⟩

/-- C8: for a source not on the exempt allow-list, the topic filter accepts
an item iff no spam keyword hits the combined
title/summary/source-ref/URL text, at least one topic keyword hits, and the
off-topic hit count is strictly below the topic hit count (a tie or greater
rejects); an item from an exempt source passes unconditionally. -/
theorem C8_topic_filter_rule (title summary source_name source_ref url : String) :
    (source_name ∈ BitcoinFilter.BITCOIN_ONLY_SOURCES →
      BitcoinFilter.is_bitcoin_related title summary source_name source_ref url = true)
    ∧ (source_name ∉ BitcoinFilter.BITCOIN_ONLY_SOURCES →
      (BitcoinFilter.is_bitcoin_related title summary source_name source_ref url = true ↔
        (BitcoinFilter.keyword_hits
            (title ++ " " ++ summary ++ " " ++ source_ref ++ " " ++ url)
            BitcoinFilter.AD_SPAM_KEYWORDS = [] ∧
         BitcoinFilter.keyword_hits
            (title ++ " " ++ summary ++ " " ++ source_ref ++ " " ++ url)
            BitcoinFilter.BITCOIN_KEYWORDS ≠ [] ∧
         (BitcoinFilter.keyword_hits
            (title ++ " " ++ summary ++ " " ++ source_ref ++ " " ++ url)
            BitcoinFilter.ALTCOIN_KEYWORDS).length <
           (BitcoinFilter.keyword_hits
            (title ++ " " ++ summary ++ " " ++ source_ref ++ " " ++ url)
            BitcoinFilter.BITCOIN_KEYWORDS).length))) := by
  constructor
  · intro h
    rw [BitcoinFilter.is_bitcoin_related, if_pos (List.elem_iff.mpr h)]
  · intro h
    rw [BitcoinFilter.is_bitcoin_related,
      if_neg (fun hc => h (List.elem_iff.mp hc))]
    dsimp only
    set combined := title ++ " " ++ summary ++ " " ++ source_ref ++ " " ++ url with hc
    set ad := BitcoinFilter.keyword_hits combined BitcoinFilter.AD_SPAM_KEYWORDS with had
    set btc := BitcoinFilter.keyword_hits combined BitcoinFilter.BITCOIN_KEYWORDS with hbtc
    set alt := BitcoinFilter.keyword_hits combined BitcoinFilter.ALTCOIN_KEYWORDS with halt
    split_ifs with h1 h2 h3
    · simp only [false_iff]
      rintro ⟨had2, -, -⟩
      exact h1 had2
    · simp only [false_iff]
      rintro ⟨-, hbtc2, -⟩
      exact hbtc2 h2
    · simp only [false_iff]
      rintro ⟨-, -, hlen⟩
      exact absurd h3.2 (not_le.mpr hlen)
    · simp only [true_iff]
      push_neg at h1
      refine ⟨h1, h2, ?_⟩
      rcases Decidable.em (alt = []) with haltnil | haltne
      · have : btc.length ≠ 0 := by
          simpa using h2
        rw [haltnil]
        simpa using Nat.pos_of_ne_zero this
      · push_neg at h3
        exact h3 haltne
    
/-- C8 witness: `"Bitcoin rallies"` from a non-exempt source has one topic
hit, no off-topic hit and no spam hit, so the filter accepts it. -/
theorem C8_topic_filter_rule_witness :
    BitcoinFilter.is_bitcoin_related "Bitcoin rallies" "" "googlenews" "" "" = true :=
  ((C8_topic_filter_rule "Bitcoin rallies" "" "googlenews" "" "").2
    (by decide)).mpr ⟨by decide, by decide, by decide⟩

namespace DedupStage

/-- Helper: the dedup loop's survivors are a sublist (order-preserving
selection) of its input. -/
theorem dedupLoop_sublist (existing : List String) :
    ∀ (l : List Item) (seen : List String),
      (dedupLoop existing seen l).1.Sublist l := by
  intro l
  induction l with
  | nil => intro seen; simp [dedupLoop]
  | cons it rest ih =>
    intro seen
    by_cases h1 : it.url_hash = ""
    · simpa [dedupLoop, h1] using (ih seen).cons₂ it
    · by_cases h2 : it.url_hash ∈ existing ∨ it.url_hash ∈ seen
      · simpa [dedupLoop, h1, h2] using (ih seen).cons it
      · simpa [dedupLoop, h1, h2] using (ih (seen ++ [it.url_hash])).cons₂ it

/-- Helper: items without a url-hash pass through the dedup loop
unchanged. -/
theorem dedupLoop_nohash (existing : List String) :
    ∀ (l : List Item) (seen : List String),
      (dedupLoop existing seen l).1.filter (fun it => it.url_hash = "") =
        l.filter (fun it => it.url_hash = "") := by
  intro l
  induction l with
  | nil => intro seen; rfl
  | cons it rest ih =>
    intro seen
    by_cases h1 : it.url_hash = ""
    · simp [dedupLoop, h1, ih seen]
    · by_cases h2 : it.url_hash ∈ existing ∨ it.url_hash ∈ seen
      · simp [dedupLoop, h1, h2, ih seen]
      · simp [dedupLoop, h1, h2, ih (seen ++ [it.url_hash])]

/-- Helper: at most one survivor carries any given nonempty hash, and none
does once that hash is on the seen list. -/
theorem dedupLoop_countP (existing : List String) (h : String) (hne : h ≠ "") :
    ∀ (l : List Item) (seen : List String),
      (h ∈ seen → (dedupLoop existing seen l).1.countP
        (fun it => it.url_hash = h) = 0) ∧
      (dedupLoop existing seen l).1.countP (fun it => it.url_hash = h) ≤ 1 := by
  intro l
  induction l with
  | nil => intro seen; simp [dedupLoop]
  | cons it rest ih =>
    intro seen
    by_cases h1 : it.url_hash = ""
    · have hith : ¬ ("" = h) := fun e => hne e.symm
      constructor
      · intro hs
        simp [dedupLoop, h1, List.countP_cons, hith, (ih seen).1 hs]
      · simpa [dedupLoop, h1, List.countP_cons, hith] using (ih seen).2
    · by_cases h2 : it.url_hash ∈ existing ∨ it.url_hash ∈ seen
      · constructor
        · intro hs
          simp [dedupLoop, h1, h2, (ih seen).1 hs]
        · simpa [dedupLoop, h1, h2] using (ih seen).2
      · have hstep : (dedupLoop existing seen (it :: rest)).1 =
            it :: (dedupLoop existing (seen ++ [it.url_hash]) rest).1 := by
          simp only [dedupLoop, if_neg h1]
          rw [if_neg (by simpa using h2)]
        by_cases hith : it.url_hash = h
        · have hseen : h ∉ seen := fun hs => h2 (Or.inr (hith ▸ hs))
          constructor
          · intro hs; exact absurd hs hseen
          · have hz := (ih (seen ++ [it.url_hash])).1
              (by rw [hith]; exact List.mem_append_right _ (List.mem_singleton.mpr rfl))
            rw [hstep, List.countP_cons, hz]
            simp [hith]
        · constructor
          · intro hs
            rw [hstep, List.countP_cons,
              (ih (seen ++ [it.url_hash])).1 (List.mem_append_left _ hs)]
            simp [hith]
          · have := (ih (seen ++ [it.url_hash])).2
            rw [hstep, List.countP_cons]
            simpa [hith] using this

/-- Helper: no survivor with a hash has that hash in the existing set the
loop was given. -/
theorem dedupLoop_not_existing (existing : List String) :
    ∀ (l : List Item) (seen : List String),
      ∀ it ∈ (dedupLoop existing seen l).1, it.url_hash ≠ "" →
        it.url_hash ∉ existing := by
  intro l
  induction l with
  | nil => intro seen it hmem; simp [dedupLoop] at hmem
  | cons a rest ih =>
    intro seen it hmem hne
    by_cases h1 : a.url_hash = ""
    · simp only [dedupLoop, if_pos h1, List.mem_cons] at hmem
      rcases hmem with rfl | hmem
      · exact absurd h1 hne
      · exact ih seen it hmem hne
    · by_cases h2 : a.url_hash ∈ existing ∨ a.url_hash ∈ seen
      · simp only [dedupLoop, if_neg h1] at hmem
        rw [if_pos (by simpa using h2)] at hmem
        exact ih seen it hmem hne
      · simp only [dedupLoop, if_neg h1] at hmem
        rw [if_neg (by simpa using h2), List.mem_cons] at hmem
        rcases hmem with rfl | hmem
        · exact fun hx => h2 (Or.inl hx)
        · exact ih (seen ++ [a.url_hash]) it hmem hne

/-- Helper: survivors plus drops account for every input item. -/
theorem dedupLoop_length (existing : List String) :
    ∀ (l : List Item) (seen : List String),
      (dedupLoop existing seen l).1.length + (dedupLoop existing seen l).2 =
        l.length := by
  intro l
  induction l with
  | nil => intro seen; rfl
  | cons it rest ih =>
    intro seen
    by_cases h1 : it.url_hash = ""
    · have := ih seen
      simp only [dedupLoop, if_pos h1]
      simp only [List.length_cons]
      omega
    · by_cases h2 : it.url_hash ∈ existing ∨ it.url_hash ∈ seen
      · have := ih seen
        simp only [dedupLoop, if_neg h1, List.length_cons]
        rw [if_pos (by simpa using h2)]
        dsimp only
        omega
      · have := ih (seen ++ [it.url_hash])
        simp only [dedupLoop, if_neg h1]
        rw [if_neg (by simpa using h2)]
        simp only [List.length_cons]
        omega

end DedupStage

namespace DedupStage

/-- Helper: the key-collection loop never loses accumulated keys. -/
theorem hashKeysGo_mono :
    ∀ (l : List Item) (acc : List String) (x : String), x ∈ acc →
      x ∈ hashKeysGo acc l := by
  intro l
  induction l with
  | nil => intro acc x hx; simpa [hashKeysGo] using hx
  | cons it rest ih =>
    intro acc x hx
    rw [hashKeysGo]
    apply ih
    split_ifs with h1 h2
    · exact hx
    · exact hx
    · exact List.mem_append_left _ hx

/-- Helper: every truthy hash occurring in the batch reaches the key list. -/
theorem hashKeysGo_mem :
    ∀ (l : List Item) (acc : List String) (it : Item), it ∈ l →
      it.url_hash ≠ "" → it.url_hash ∈ hashKeysGo acc l := by
  intro l
  induction l with
  | nil => intro acc it hmem; exact absurd hmem (List.not_mem_nil it)
  | cons a rest ih =>
    intro acc it hmem hne
    rcases List.mem_cons.mp hmem with rfl | hmem
    · rw [hashKeysGo]
      apply hashKeysGo_mono
      rw [if_neg hne]
      by_cases hc : acc.contains it.url_hash
      · rw [if_pos hc]
        exact List.elem_iff.mp hc
      · rw [if_neg hc]
        exact List.mem_append_right _ (List.mem_singleton.mpr rfl)
    · exact ih _ it hmem hne

/-- C2: one run of the Dedup stage queries the persisted store exactly once
(one batched lookup); items without a `url_hash` pass through unchanged; at
most one item per `url_hash` survives; no surviving item's hash is already
persisted; the survivors preserve input order (they form a sublist of the
input); and the duplicates counter grows by exactly the number of dropped
items. -/
theorem C2_dedup_stage_contract (store : List String) (ctx : PipelineContext) :
    (process store ctx).2 = 1 ∧
    (process store ctx).1.items.Sublist ctx.items ∧
    (process store ctx).1.items.filter (fun it => it.url_hash = "") =
      ctx.items.filter (fun it => it.url_hash = "") ∧
    (∀ h : String, h ≠ "" →
      (process store ctx).1.items.countP (fun it => it.url_hash = h) ≤ 1) ∧
    (∀ it ∈ (process store ctx).1.items, it.url_hash ≠ "" →
      it.url_hash ∉ store) ∧
    (process store ctx).1.duplicates =
      ctx.duplicates + (ctx.items.length - (process store ctx).1.items.length) := by
  have hitems : (process store ctx).1.items =
      (dedupLoop (get_existing_hashes store (hashKeys ctx.items)).1 [] ctx.items).1 := rfl
  have hdup : (process store ctx).1.duplicates =
      ctx.duplicates +
        (dedupLoop (get_existing_hashes store (hashKeys ctx.items)).1 [] ctx.items).2 := rfl
  refine ⟨rfl, ?_, ?_, ?_, ?_, ?_⟩
  · rw [hitems]; exact dedupLoop_sublist _ _ _
  · rw [hitems]; exact dedupLoop_nohash _ _ _
  · intro h hne
    rw [hitems]
    exact (dedupLoop_countP _ h hne _ _).2
  · intro it hmem hne
    intro hstore
    have hinlist : it ∈ ctx.items := by
      rw [hitems] at hmem
      exact (dedupLoop_sublist _ ctx.items []).subset hmem
    have hkey : it.url_hash ∈ hashKeys ctx.items :=
      hashKeysGo_mem ctx.items [] it hinlist hne
    have hex : it.url_hash ∈ (get_existing_hashes store (hashKeys ctx.items)).1 := by
      rw [get_existing_hashes]
      exact List.mem_filter.mpr ⟨hkey, List.elem_iff.mpr hstore⟩
    rw [hitems] at hmem
    exact dedupLoop_not_existing _ ctx.items [] it hmem hne hex
  · rw [hdup, hitems]
    have := dedupLoop_length (get_existing_hashes store (hashKeys ctx.items)).1
      ctx.items []
    omega

/-- C2 witness: a four-item batch — a fresh hash, an already-persisted hash,
a hash-less item, and an in-batch repeat of the fresh hash — keeps exactly
the fresh item and the hash-less item, with one store query and two counted
drops. -/
theorem C2_dedup_stage_contract_witness :
    (process ["h2"]
        { source_name := "s",
          items := [{ id := "a", url_hash := "h1" }, { id := "b", url_hash := "h2" },
                    { id := "c" }, { id := "d", url_hash := "h1" }] }).2 = 1 ∧
    (process ["h2"]
        { source_name := "s",
          items := [{ id := "a", url_hash := "h1" }, { id := "b", url_hash := "h2" },
                    { id := "c" }, { id := "d", url_hash := "h1" }] }).1.items.countP
      (fun it => it.url_hash = "h1") ≤ 1 := by
  refine ⟨(C2_dedup_stage_contract ["h2"] _).1, ?_⟩
  exact (C2_dedup_stage_contract ["h2"] _).2.2.2.1 "h1" (by decide)

end DedupStage

namespace FetchEngine

/-- Helper: `accumulate` appends one per-source entry and ANDs its success
into the run flag. -/
theorem accumulate_spec (acc : RunSummary) (source : String) (sr : SourceResult) :
    (accumulate acc source sr).sources = acc.sources ++ [(source, sr)] ∧
    (accumulate acc source sr).success = (acc.success && sr.success) := by
  refine ⟨rfl, ?_⟩
  rw [accumulate]
  cases sr.success <;> simp

/-- Helper: with a sink that never raises, the processing loop returns a
summary whose source list extends the accumulator by one entry per fetch
result and whose success flag ANDs every per-source success into the
accumulator's. -/
theorem runLoop_ok (pipeline : String → List Item → Except String PStats)
    (sink : Option ProgressSink)
    (hsink : ∀ u, emitProgress sink u = Except.ok ()) :
    ∀ (frs : List FetchResult) (i : Nat) (acc : RunSummary),
      ∃ S, runLoop pipeline sink frs i acc = Except.ok S ∧
        S.sources = acc.sources ++ frs.map (fun fr =>
          (fr.source, process_fetched_items pipeline fr.source fr.items fr.error)) ∧
        S.success = (acc.success && frs.all (fun fr =>
          (process_fetched_items pipeline fr.source fr.items fr.error).success)) := by
  intro frs
  induction frs with
  | nil =>
    intro i acc
    exact ⟨acc, rfl, by simp, by simp⟩
  | cons fr rest ih =>
    intro i acc
    obtain ⟨S, hrun, hsrc, hsuc⟩ :=
      ih (i + 1) (accumulate acc fr.source
        (process_fetched_items pipeline fr.source fr.items fr.error))
    refine ⟨S, ?_, ?_, ?_⟩
    · rw [runLoop]
      simp only [hsink]
      simpa using hrun
    · rw [hsrc, (accumulate_spec _ _ _).1]
      simp
    · rw [hsuc, (accumulate_spec _ _ _).2]
      simp [Bool.and_assoc]

/-- C5 amended: for every combination of per-source fetch outcomes
(including raising fetches) and every non-raising progress sink (or no sink
at all), `run_all` returns a run summary — no exception escapes — and the
summary's `success` field is false exactly when at least one source's
per-source result has `success = false`.  The non-raising hypothesis on the
sink is forced by the counterexample: `run_all` invokes the sink unguarded. -/
theorem C5_run_all_returns_summary
    (sources : List (String × Except String (List Item)))
    (pipeline : String → List Item → Except String PStats)
    (sink : Option ProgressSink)
    (hsink : ∀ u, emitProgress sink u = Except.ok ()) :
    ∃ S, run_all sources pipeline sink = Except.ok S ∧
      (S.success = false ↔ ∃ p ∈ S.sources, p.2.success = false) := by
  obtain ⟨S, hrun, hsrc, hsuc⟩ := runLoop_ok pipeline sink hsink
    (sources.map (fun p => fetch_only p.1 p.2)) 0 initSummary
  refine ⟨S, ?_, ?_⟩
  · rw [run_all]
    simp only [hsink]
    simpa using hrun
  · rw [hsuc]
    simp only [initSummary, Bool.true_and]
    rw [hsrc]
    constructor
    · intro hall
      obtain ⟨fr, hmem, hfail⟩ := List.all_eq_false.mp hall
      refine ⟨(fr.source, process_fetched_items pipeline fr.source fr.items fr.error), ?_, ?_⟩
      · refine List.mem_append_right _ ?_
        exact List.mem_map_of_mem
          (fun fr => (fr.source, process_fetched_items pipeline fr.source fr.items fr.error)) hmem
      · simpa using hfail
    · rintro ⟨p, hmem, hfail⟩
      rw [List.mem_append] at hmem
      rcases hmem with hmem | hmem
      · simp [initSummary] at hmem
      · obtain ⟨fr, hmemf, rfl⟩ := List.mem_map.mp hmem
        apply List.all_eq_false.mpr
        exact ⟨fr, hmemf, by simpa using hfail⟩

/-- C5 amended witness: two sources, one of them with a raising fetch, no
sink: the run returns a summary whose success flag matches the
at-least-one-source-failed criterion. -/
theorem C5_run_all_returns_summary_witness :
    ∃ S, run_all [("a", Except.ok []), ("b", Except.error "boom")]
        (fun _ _ => Except.ok {}) none = Except.ok S ∧
      (S.success = false ↔ ∃ p ∈ S.sources, p.2.success = false) :=
  C5_run_all_returns_summary [("a", Except.ok []), ("b", Except.error "boom")]
    (fun _ _ => Except.ok {}) none (fun _ => rfl)

/-- C5 counterexample: with one healthy source and a progress sink that
raises, `run_all` propagates the sink's exception to its caller instead of
returning a summary — the sink calls are not guarded. -/
theorem C5_sink_error_escapes_run_all :
    run_all [("a", Except.ok [])] (fun _ _ => Except.ok {})
      (some (fun _ => Except.error "sink down")) =
      Except.error "sink down" := rfl

end FetchEngine

/-- C6 counterexample: with NO translator configured (the stage's
`translator` is `None`), the stage returns the context unchanged — the item
ends with no `translation_status` at all, not `'skipped'` as claimed. -/
theorem C6_no_translator_leaves_items_unmarked :
    TranslateStage.process none
        { source_name := "googlenews",
          items := [{ id := "en-1", title := "Bitcoin rallies again" }] } =
      { source_name := "googlenews",
        items := [{ id := "en-1", title := "Bitcoin rallies again" }] } ∧
    ∃ it ∈ (TranslateStage.process none
        { source_name := "googlenews",
          items := [{ id := "en-1", title := "Bitcoin rallies again" }] }).items,
      it.translation_status ≠ some "skipped" := by
  constructor
  · rfl
  · exact ⟨{ id := "en-1", title := "Bitcoin rallies again" }, by decide, by decide⟩

/-- C6 amended: the Translate stage marks every item `skipped` (with no
provider call) only on the native-language branch — a translator is
configured and the source is on the Korean allow-list.  With no translator
the context is returned unchanged (no status is written), and with a
translator whose capability is unavailable (`client = None`) the items are
not treated as skipped: they keep their titles and summaries (copied through
with no provider call, since there is no client) and end `ok`/`failed`
according to the Korean-signal check of their unchanged title, the failure
counter growing by one per `failed` item. -/
theorem C6_translate_stage_paths (svc : TranslateService.Service)
    (ctx : PipelineContext) :
    (TranslateStage.process none ctx = ctx)
    ∧ (ctx.source_name ∈ TranslateStage.KOREAN_SOURCES →
        ∀ it ∈ (TranslateStage.process (some svc) ctx).items,
          it.translation_status = some "skipped")
    ∧ (svc.client = none → ctx.source_name ∉ TranslateStage.KOREAN_SOURCES →
        (TranslateStage.process (some svc) ctx).items =
          ctx.items.map (fun it =>
            { it with
              translatedFlag := some (TranslateService.is_korean_text it.title),
              translation_status :=
                some (if TranslateService.is_korean_text it.title then "ok"
                      else "failed") }) ∧
        (TranslateStage.process (some svc) ctx).translation_failed =
          ctx.translation_failed +
            ctx.items.countP
              (fun it => !(TranslateService.is_korean_text it.title))) := by
  refine ⟨rfl, ?_, ?_⟩
  · intro hkor it hmem
    by_cases hnil : ctx.items = []
    · rw [TranslateStage.process] at hmem
      simp only [if_pos hnil] at hmem
      rw [hnil] at hmem
      exact absurd hmem (List.not_mem_nil it)
    · rw [TranslateStage.process] at hmem
      simp only [if_neg hnil] at hmem
      rw [if_pos (List.elem_iff.mpr hkor)] at hmem
      simp only [List.mem_map] at hmem
      obtain ⟨a, -, rfl⟩ := hmem
      rfl
  · intro hclient hkor
    have hnotkor : ¬ (TranslateStage.KOREAN_SOURCES.contains ctx.source_name = true) :=
      fun hc => hkor (List.elem_iff.mp hc)
    have h1 : TranslateService.translate_batch_sync svc ctx.items =
        ctx.items.map (fun it => { it with translatedFlag := some false }) := by
      simp only [TranslateService.translate_batch_sync, hclient]
    by_cases hnil : ctx.items = []
    · rw [TranslateStage.process]
      simp only [if_pos hnil]
      rw [hnil]
      exact ⟨rfl, by simp⟩
    · constructor
      · rw [TranslateStage.process]
        simp only [if_neg hnil]
        rw [if_neg hnotkor]
        simp only [h1, List.map_map]
        congr 1
        funext it
        obtain ⟨iid, ititle, isum, ihash, itko, isko, ifl, its⟩ := it
        by_cases hk : TranslateService.is_korean_text ititle
        · simp [TranslateService.translate_single_item,
            TranslateService.translate_to_korean, hclient, hk]
        · simp [TranslateService.translate_single_item,
            TranslateService.translate_to_korean, hclient, hk]
      · rw [TranslateStage.process]
        simp only [if_neg hnil]
        rw [if_neg hnotkor]
        simp only [h1, List.map_map, List.countP_map]
        have hcong : ∀ f g : Item → Bool, f = g →
            ctx.items.countP f = ctx.items.countP g := fun f g h => by rw [h]
        have hadd : ∀ a b : Nat, a = b →
            ctx.translation_failed + a = ctx.translation_failed + b :=
          fun a b h => by rw [h]
        apply hadd
        apply hcong
        funext it
        obtain ⟨iid, ititle, isum, ihash, itko, isko, ifl, its⟩ := it
        by_cases hk : TranslateService.is_korean_text ititle
        · simp [TranslateService.translate_single_item,
            TranslateService.translate_to_korean, hclient, hk]
        · simp [TranslateService.translate_single_item,
            TranslateService.translate_to_korean, hclient, hk]

/-- C6 amended witness: an unavailable capability (translator object with
`client = None`) over a non-Korean source leaves the English item `failed`
and the already-Korean item `ok`, with titles unchanged. -/
theorem C6_translate_stage_paths_witness :
    (TranslateStage.process (some ⟨none⟩)
        { source_name := "googlenews",
          items := [{ id := "en-1", title := "Bitcoin rallies again" },
                    { id := "ko-1", title := "비트코인 상승" }] }).items =
      [{ id := "en-1", title := "Bitcoin rallies again",
         translatedFlag := some false, translation_status := some "failed" },
       { id := "ko-1", title := "비트코인 상승",
         translatedFlag := some true, translation_status := some "ok" }] := by
  have h := ((C6_translate_stage_paths ⟨none⟩
    { source_name := "googlenews",
      items := [{ id := "en-1", title := "Bitcoin rallies again" },
                { id := "ko-1", title := "비트코인 상승" }] }).2.2 rfl
    (by decide)).1
  rw [h]
  decide

/-- C3: the `PipelineContext` dataclass of `pipeline/base_stage.py` declares
neither `translation_required` nor `translation_dropped`, so the constructor
call made by the repository's own translation-policy test (and by
`fetch_engine.py` line 241) raises a `TypeError` on the unexpected keyword,
and the Persist stage's reads of those attributes cannot succeed. -/
theorem C3_context_missing_translation_fields :
    unexpectedKeyword basePipelineContextFields
        ["db", "source_name", "translation_required", "items"] =
      some "translation_required" ∧
    "translation_required" ∉ basePipelineContextFields ∧
    "translation_dropped" ∉ basePipelineContextFields := by
  decide

namespace DedupGroupService

/-- Helper: every accepted match score is positive (both acceptance branches
require at least 0.85), so it beats the loop's initial best of 0.0. -/
theorem match_score_pos {a b : String} {s : ℚ}
    (h : SimilarityService.match_score a b = some s) : 0 < s := by
  have h85 : (0 : ℚ) < 85 / 100 := by norm_num
  simp only [SimilarityService.match_score] at h
  split_ifs at h with h1 h2 h3
  · obtain rfl : _ = s := Option.some.inj h
    rw [jaccard_threshold_eq] at h1
    linarith
  · obtain rfl : _ = s := Option.some.inj h
    rw [levenshtein_threshold_eq] at h3
    linarith

/-- Helper: minted group ids are nonempty strings. -/
theorem group_id_ne_empty (h : String) : "group_" ++ h ≠ "" := by
  intro he
  have hd := congrArg String.data he
  rw [String.data_append] at hd
  exact absurd (List.append_eq_nil.mp hd).1 (by decide)

/-- Helper: minted group ids determine the url-hash they were built from. -/
theorem group_id_inj {x y : String} (h : "group_" ++ x = "group_" ++ y) :
    x = y := by
  have hd := congrArg String.data h
  rw [String.data_append, String.data_append] at hd
  have hxy := List.append_cancel_left hd
  cases x
  cases y
  exact congrArg String.mk hxy

/-- Helper: a singleton store inside the window is its own candidate list. -/
theorem windowCandidates_singleton (x : FeedItem) (cutoff : Int)
    (h : cutoff ≤ x.published_at) : windowCandidates [x] cutoff = [x] := by
  simp [windowCandidates, h, sortByPublishedAt, insertByPub]

/-- Helper: a chronologically ordered two-item store inside the window is
its own candidate list. -/
theorem windowCandidates_pair (x y : FeedItem) (cutoff : Int)
    (hx : cutoff ≤ x.published_at) (hy : cutoff ≤ y.published_at)
    (hxy : x.published_at ≤ y.published_at) :
    windowCandidates [x, y] cutoff = [x, y] := by
  simp [windowCandidates, hx, hy, sortByPublishedAt, insertByPub, hxy]

/-- Helper: one same-domain grouped candidate yields exactly itself as the
representative of its group. -/
theorem collectReps_singleton_rep (domain : String) (c : FeedItem) (gid : String)
    (ht : c.title ≠ "") (hu : c.url ≠ "") (hdom : domainOf c.url = domain)
    (hgid : c.rawGroup = some gid) (hne : gid ≠ "") :
    collectReps domain [c] = ([(gid, c)], []) := by
  simp [collectReps, ht, hu, hdom, hgid, hne]

/-- Helper: two same-domain candidates carrying the same group id yield the
chronologically first as the group's sole representative. -/
theorem collectReps_pair_same_group (domain : String) (a b : FeedItem)
    (gid : String)
    (hta : a.title ≠ "") (hua : a.url ≠ "") (hdoma : domainOf a.url = domain)
    (hga : a.rawGroup = some gid)
    (htb : b.title ≠ "") (hub : b.url ≠ "") (hdomb : domainOf b.url = domain)
    (hgb : b.rawGroup = some gid) (hne : gid ≠ "") :
    collectReps domain [a, b] = ([(gid, a)], []) := by
  simp [collectReps, hta, hua, hdoma, hga, htb, hub, hdomb, hgb, hne]

/-- Helper: the best-representative loop over one representative with an
accepted (hence positive) score picks that representative. -/
theorem bestRep_single_match (t : String) (gid : String) (rep : FeedItem)
    {s : ℚ} (h : SimilarityService.match_score t rep.title = some s) :
    bestRep t [(gid, rep)] = (s, some gid) := by
  have := match_score_pos h
  simp [bestRep, h, this]

/-- Helper: the best-representative loop over one non-matching
representative finds nothing. -/
theorem bestRep_single_none (t : String) (gid : String) (rep : FeedItem)
    (h : SimilarityService.match_score t rep.title = none) :
    bestRep t [(gid, rep)] = (0, none) := by
  simp [bestRep, h]

end DedupGroupService

/-- C1: three same-domain items inside the 24-hour window, assigned group
ids chronologically A then B then C (each persisted before the next
assignment), with `match(A,B)` and `match(B,C)` holding but `match(A,C)`
failing, never end up sharing one group id among all three: C is compared
only against the group's chronologically earliest representative A, so it
starts its own group. -/
theorem C1_anti_snowball (A B C : DedupGroupService.ItemData)
    (htA : A.title ≠ "") (huA : A.url ≠ "")
    (htB : B.title ≠ "") (huB : B.url ≠ "")
    (htC : C.title ≠ "") (huC : C.url ≠ "")
    (hdomB : DedupGroupService.domainOf B.url = DedupGroupService.domainOf A.url)
    (hdomC : DedupGroupService.domainOf C.url = DedupGroupService.domainOf A.url)
    (hABt : A.published_at ≤ B.published_at)
    (hBCt : B.published_at ≤ C.published_at)
    (hwin : C.published_at - DedupGroupService.WINDOW_HOURS ≤ A.published_at)
    (hmAB : (SimilarityService.match_score B.title A.title).isSome)
    (_hmBC : (SimilarityService.match_score C.title B.title).isSome)
    (hmAC : SimilarityService.match_score C.title A.title = none)
    (hhash : C.url_hash ≠ A.url_hash) :
    ¬ ((DedupGroupService.assignAndPersist [] A).1 =
         (DedupGroupService.assignAndPersist
           (DedupGroupService.assignAndPersist [] A).2 B).1 ∧
       (DedupGroupService.assignAndPersist
           (DedupGroupService.assignAndPersist [] A).2 B).1 =
         (DedupGroupService.assignAndPersist
           (DedupGroupService.assignAndPersist
             (DedupGroupService.assignAndPersist [] A).2 B).2 C).1) := by
  have h24 : DedupGroupService.WINDOW_HOURS = 24 := rfl
  set gA := DedupGroupService.create_group_id A with hgA
  have hgAne : gA ≠ "" := DedupGroupService.group_id_ne_empty A.url_hash
  set itemA : DedupGroupService.FeedItem :=
    ⟨A.id, A.title, A.url, A.published_at, some gA⟩ with hitemA
  -- step A: empty store, fresh singleton group
  have hA : DedupGroupService.assign_group_id [] A = (gA, []) := by
    simp only [DedupGroupService.assign_group_id]
    rw [if_neg (by simp [htA, huA])]
    rfl
  have hA2 : DedupGroupService.assignAndPersist [] A = (gA, [itemA]) := by
    rw [DedupGroupService.assignAndPersist, hA]
    rfl
  -- step B: A is the sole representative and matches, so B joins gA
  obtain ⟨sB, hsB⟩ := Option.isSome_iff_exists.mp hmAB
  have hcutB : B.published_at - DedupGroupService.WINDOW_HOURS ≤ itemA.published_at := by
    show B.published_at - DedupGroupService.WINDOW_HOURS ≤ A.published_at
    rw [h24]
    rw [h24] at hwin
    omega
  have hB : DedupGroupService.assign_group_id [itemA] B = (gA, [itemA]) := by
    simp only [DedupGroupService.assign_group_id]
    rw [if_neg (by simp [htB, huB])]
    rw [DedupGroupService.windowCandidates_singleton itemA _ hcutB]
    rw [DedupGroupService.collectReps_singleton_rep (DedupGroupService.domainOf B.url)
      itemA gA htA huA hdomB.symm rfl hgAne]
    rw [DedupGroupService.bestRep_single_match B.title gA itemA hsB]
  have hB2 : DedupGroupService.assignAndPersist [itemA] B =
      (gA, [itemA, ⟨B.id, B.title, B.url, B.published_at, some gA⟩]) := by
    rw [DedupGroupService.assignAndPersist, hB]
    rfl
  set itemB : DedupGroupService.FeedItem :=
    ⟨B.id, B.title, B.url, B.published_at, some gA⟩ with hitemB
  -- step C: the only representative of gA is A; C does not match it
  have hcutCA : C.published_at - DedupGroupService.WINDOW_HOURS ≤ itemA.published_at := by
    show C.published_at - DedupGroupService.WINDOW_HOURS ≤ A.published_at
    exact hwin
  have hcutCB : C.published_at - DedupGroupService.WINDOW_HOURS ≤ itemB.published_at := by
    show C.published_at - DedupGroupService.WINDOW_HOURS ≤ B.published_at
    rw [h24]
    rw [h24] at hwin
    omega
  have hC : DedupGroupService.assign_group_id [itemA, itemB] C =
      (DedupGroupService.create_group_id C, [itemA, itemB]) := by
    simp only [DedupGroupService.assign_group_id]
    rw [if_neg (by simp [htC, huC])]
    rw [DedupGroupService.windowCandidates_pair itemA itemB _ hcutCA hcutCB hABt]
    rw [DedupGroupService.collectReps_pair_same_group (DedupGroupService.domainOf C.url)
      itemA itemB gA htA huA hdomC.symm rfl htB huB (hdomB.trans hdomC.symm) rfl hgAne]
    rw [DedupGroupService.bestRep_single_none C.title gA itemA hmAC]
    rfl
  rintro ⟨-, h23⟩
  rw [hA2] at h23
  rw [hB2] at h23
  -- h23 now says gA equals C's fresh group id
  have : (gA, [itemA, itemB]).1 =
      (DedupGroupService.assignAndPersist [itemA, itemB] C).1 := h23
  rw [DedupGroupService.assignAndPersist, hC] at this
  have heq : A.url_hash = C.url_hash :=
    DedupGroupService.group_id_inj this
  exact hhash heq.symm

/-- C1 witness: a concrete chain — A and B share six of seven tokens, B and
C share six of seven, A and C only six of eight — on one domain inside the
window; the three assigned group ids are not all equal. -/
theorem C1_anti_snowball_witness :
    ¬ ((DedupGroupService.assignAndPersist []
          ⟨"a", "aa bb cc dd ee ff gg", "https://ex.com/a", 0, "ha"⟩).1 =
         (DedupGroupService.assignAndPersist
           (DedupGroupService.assignAndPersist []
             ⟨"a", "aa bb cc dd ee ff gg", "https://ex.com/a", 0, "ha"⟩).2
           ⟨"b", "aa bb cc dd ee ff", "https://ex.com/b", 1, "hb"⟩).1 ∧
       (DedupGroupService.assignAndPersist
           (DedupGroupService.assignAndPersist []
             ⟨"a", "aa bb cc dd ee ff gg", "https://ex.com/a", 0, "ha"⟩).2
           ⟨"b", "aa bb cc dd ee ff", "https://ex.com/b", 1, "hb"⟩).1 =
         (DedupGroupService.assignAndPersist
           (DedupGroupService.assignAndPersist
             (DedupGroupService.assignAndPersist []
               ⟨"a", "aa bb cc dd ee ff gg", "https://ex.com/a", 0, "ha"⟩).2
             ⟨"b", "aa bb cc dd ee ff", "https://ex.com/b", 1, "hb"⟩).2
           ⟨"c", "aa bb cc dd ee ff hh", "https://ex.com/c", 2, "hc"⟩).1) :=
  C1_anti_snowball
    ⟨"a", "aa bb cc dd ee ff gg", "https://ex.com/a", 0, "ha"⟩
    ⟨"b", "aa bb cc dd ee ff", "https://ex.com/b", 1, "hb"⟩
    ⟨"c", "aa bb cc dd ee ff hh", "https://ex.com/c", 2, "hc"⟩
    (by decide) (by decide) (by decide) (by decide) (by decide) (by decide)
    (by decide) (by decide) (by decide) (by decide) (by decide)
    (by decide) (by decide) (by decide) (by decide)

/-- C7: evaluated at the repository's own cross-domain regression fixture
(`test_assign_group_id_matches_cross_domain_when_high_similarity`), the two
titles match with score 1, yet `assign_group_id` returns a fresh singleton
group and leaves the existing cross-domain article untouched: the domain
gate at `dedup_group_service.py` line 63 removes every cross-domain
candidate before the match step, so cross-domain items are never grouped —
contradicting the claim, the spec's §8 bullet, and the repository's test. -/
theorem C7_cross_domain_never_grouped :
    (SimilarityService.match_score
        "Bitcoin ETF inflows surge as institutions buy dip"
        "Bitcoin ETF inflows surge as institutions buy the dip").isSome = true ∧
    DedupGroupService.assign_group_id
        [⟨"existing-3", "Bitcoin ETF inflows surge as institutions buy the dip",
          "https://site-a.com/article/etf-inflows", 0, none⟩]
        ⟨"new-3", "Bitcoin ETF inflows surge as institutions buy dip",
          "https://site-b.com/news/bitcoin-etf-inflows", 2, "hash6"⟩ =
      ("group_hash6",
       [⟨"existing-3", "Bitcoin ETF inflows surge as institutions buy the dip",
         "https://site-a.com/article/etf-inflows", 0, none⟩]) :=
  ⟨by decide, by decide⟩

/-- Helper: `breakOnFirst` passes over a list free of the separator. -/
theorem breakOnFirst_not_mem (sep : Char) :
    ∀ l : List Char, sep ∉ l → breakOnFirst sep l = (l, none) := by
  intro l
  induction l with
  | nil => intro h; rfl
  | cons c rest ih =>
    intro h
    rw [breakOnFirst]
    rw [if_neg (fun hc => h (List.mem_cons.mpr (Or.inl hc.symm)))]
    rw [ih (fun hm => h (List.mem_cons_of_mem c hm))]

/-- Helper: `breakOnFirst` splits at the first separator occurrence. -/
theorem breakOnFirst_boundary (sep : Char) :
    ∀ (xs ys : List Char), sep ∉ xs →
      breakOnFirst sep (xs ++ sep :: ys) = (xs, some ys) := by
  intro xs
  induction xs with
  | nil => intro ys h; simp [breakOnFirst]
  | cons c rest ih =>
    intro ys h
    rw [List.cons_append, breakOnFirst]
    rw [if_neg (fun hc => h (List.mem_cons.mpr (Or.inl hc.symm)))]
    rw [ih ys (fun hm => h (List.mem_cons_of_mem c hm))]

/-- Helper: `breakOnSub` finds a pattern placed right after a prefix free of
the pattern's first character. -/
theorem breakOnSub_boundary (c0 : Char) (pat : List Char) :
    ∀ (xs rest : List Char), c0 ∉ xs →
      breakOnSub (c0 :: pat) (xs ++ (c0 :: pat) ++ rest) =
        some (xs, rest) := by
  intro xs
  induction xs with
  | nil =>
    intro rest h
    simp only [List.nil_append]
    have hne : (c0 :: pat) ++ rest ≠ [] := by simp
    obtain ⟨d, ds, hds⟩ := List.exists_cons_of_ne_nil hne
    rw [hds, breakOnSub, ← hds]
    rw [if_pos (List.isPrefixOf_iff_prefix.mpr (List.prefix_append _ _))]
    rw [List.drop_left]
  | cons c rest0 ih =>
    intro rest h
    have hcne : c0 ≠ c := fun hc => h (List.mem_cons.mpr (Or.inl hc))
    rw [List.cons_append, List.cons_append, breakOnSub]
    rw [if_neg (by simp [List.isPrefixOf, hcne])]
    rw [ih rest (fun hm => h (List.mem_cons_of_mem c hm))]
    rfl

/-- Helper: `String.mk` is inverse to `String.data`. -/
theorem stringMk_data (s : String) : String.mk s.data = s := rfl

/-- Helper: `takeWhile` passes through a block whose characters all satisfy
the predicate. -/
theorem takeWhile_append_all (p : Char → Bool) :
    ∀ (xs ys : List Char), (∀ c ∈ xs, p c = true) →
      (xs ++ ys).takeWhile p = xs ++ ys.takeWhile p := by
  intro xs
  induction xs with
  | nil => intro ys h; rfl
  | cons c rest ih =>
    intro ys h
    rw [List.cons_append, List.takeWhile_cons]
    rw [h c (List.mem_cons_self c rest)]
    rw [ih ys (fun d hd => h d (List.mem_cons_of_mem c hd))]
    rfl

/-- Helper: every character of an ampersand-join comes from one of the
segments or is the ampersand itself. -/
theorem joinAmp_chars :
    ∀ (q : List String) (c : Char), c ∈ (joinAmp q).data →
      (∃ s ∈ q, c ∈ s.data) ∨ c = '&' := by
  intro q
  induction q with
  | nil => intro c hc; exact absurd hc (List.not_mem_nil c)
  | cons s rest ih =>
    intro c hc
    match rest, ih with
    | [], _ =>
      exact Or.inl ⟨s, List.mem_cons_self s [], by simpa [joinAmp] using hc⟩
    | r :: rest0, ih =>
      rw [show joinAmp (s :: r :: rest0) = s ++ "&" ++ joinAmp (r :: rest0) from rfl] at hc
      rw [String.data_append, String.data_append] at hc
      rcases List.mem_append.mp hc with hc1 | hc2
      · rcases List.mem_append.mp hc1 with hs | hamp
        · exact Or.inl ⟨s, List.mem_cons_self s _, hs⟩
        · exact Or.inr (by simpa using hamp)
      · rcases ih c hc2 with ⟨t, ht, hct⟩ | h
        · exact Or.inl ⟨t, List.mem_cons_of_mem s ht, hct⟩
        · exact Or.inr h

/-- Helper: parsing a well-formed structured URL recovers its parts (with
the scheme lower-cased, as `urlparse` does). -/
theorem urlparse_buildUrl (scheme host path : String) (q : List String)
    (hwf : wfUrlParts scheme host path q) :
    urlparse (buildUrl scheme host path q) =
      ⟨pyLower scheme, host, path, if q = [] then "" else joinAmp q, ""⟩ := by
  obtain ⟨hws, hwh, hwp0, hwp, hwq⟩ := hwf
  set qp : String := if q = [] then "" else "?" ++ joinAmp q with hqp
  have hdata : (buildUrl scheme host path q).data =
      scheme.data ++ (':' :: "//".data) ++
        (host.data ++ (path.data ++ qp.data)) := by
    rw [buildUrl]
    simp only [String.data_append, hqp]
    simp
  have hnocolon : ':' ∉ scheme.data := fun hm => (hws _ hm).1 rfl
  have hb := breakOnSub_boundary ':' "//".data scheme.data
    (host.data ++ (path.data ++ qp.data)) hnocolon
  have hany : scheme.data.any (fun c => c = '/' || c = '?' || c = '#') = false := by
    rw [List.any_eq_false]
    intro c hc
    simp [(hws c hc).2.1, (hws c hc).2.2.1, (hws c hc).2.2.2]
  have htw : (host.data ++ (path.data ++ qp.data)).takeWhile
      (fun c => !(c = '/' || c = '?' || c = '#')) = host.data := by
    have hpredh : ∀ c ∈ host.data,
        (fun c => !(c = '/' || c = '?' || c = '#')) c = true := by
      intro c hc
      simp [(hwh c hc).1, (hwh c hc).2.1, (hwh c hc).2.2]
    rw [takeWhile_append_all _ _ _ hpredh]
    have hrest : (path.data ++ qp.data).takeWhile
        (fun c => !(c = '/' || c = '?' || c = '#')) = [] := by
      rcases hwp0 with hp0 | hp0
      · rw [hp0]
        by_cases hq : q = []
        · simp [hqp, hq]
        · rw [hqp, if_neg hq]
          simp [String.data_append]
      · cases hpds : path.data with
        | nil => rw [hpds] at hp0; simp at hp0
        | cons d ds =>
          rw [hpds] at hp0
          have hd : d = '/' := by simpa using hp0
          rw [List.cons_append, List.takeWhile_cons]
          simp [hd]
    rw [hrest, List.append_nil]
  have hnohash : '#' ∉ path.data ++ qp.data := by
    intro hm
    rcases List.mem_append.mp hm with hm | hm
    · exact (hwp _ hm).2 rfl
    · by_cases hq : q = []
      · rw [hqp] at hm
        rw [if_pos hq] at hm
        exact absurd hm (List.not_mem_nil _)
      · rw [hqp, if_neg hq, String.data_append] at hm
        rcases List.mem_append.mp hm with hm | hm
        · simp only [List.mem_singleton] at hm
          exact absurd hm (by decide)
        · rcases joinAmp_chars q '#' hm with ⟨t, ht, hct⟩ | h
          · exact (hwq t ht _ hct).2.1 rfl
          · exact absurd h (by decide)
  have hnoq : '?' ∉ path.data := fun hm => (hwp _ hm).1 rfl
  -- unfold the parser and discharge each stage
  rw [urlparse]
  rw [hdata]
  rw [show ("://".data : List Char) = ':' :: "//".data from rfl]
  rw [hb]
  simp only
  rw [hany]
  simp only [Bool.false_eq_true, if_false]
  rw [htw]
  rw [List.drop_left]
  by_cases hq : q = []
  · have hqpe : qp = "" := by rw [hqp, if_pos hq]
    rw [hqpe]
    rw [show ("" : String).data = ([] : List Char) from rfl, List.append_nil]
    rw [breakOnFirst_not_mem '#' _
      (fun hm => hnohash (List.mem_append_left _ hm))]
    rw [breakOnFirst_not_mem '?' _ hnoq]
    rw [if_pos hq]
    rfl
  · have hqpd : qp.data = '?' :: (joinAmp q).data := by
      rw [hqp, if_neg hq, String.data_append]
      rfl
    rw [hqpd]
    rw [hqpd] at hnohash
    rw [breakOnFirst_not_mem '#' _ hnohash]
    rw [breakOnFirst_boundary '?' _ _ hnoq]
    rw [if_neg hq]
    rfl

/-- Helper: splitting a query free of ampersands is the identity. -/
theorem splitAmp_no_amp : ∀ l : List Char, '&' ∉ l → splitAmp l = [l] := by
  intro l
  induction l with
  | nil => intro h; rfl
  | cons c rest ih =>
    intro h
    rw [splitAmp]
    rw [ih (fun hm => h (List.mem_cons_of_mem c hm))]
    rw [if_neg (fun hc => h (List.mem_cons.mpr (Or.inl hc.symm)))]

/-- Helper: splitting at the first ampersand detaches the first segment. -/
theorem splitAmp_append_amp :
    ∀ (xs ys : List Char), '&' ∉ xs →
      splitAmp (xs ++ '&' :: ys) = xs :: splitAmp ys := by
  intro xs
  induction xs with
  | nil => intro ys h; simp [splitAmp]
  | cons c rest ih =>
    intro ys h
    rw [List.cons_append, splitAmp]
    rw [ih ys (fun hm => h (List.mem_cons_of_mem c hm))]
    rw [if_neg (fun hc => h (List.mem_cons.mpr (Or.inl hc.symm)))]

/-- Helper: `parse_qsl` of an ampersand-join is the segment-wise parse. -/
theorem parse_qsl_joinAmp :
    ∀ segs : List String, (∀ s ∈ segs, '&' ∉ s.data) →
      parse_qsl (joinAmp segs) =
        segs.filterMap (fun s => parseSegment s.data) := by
  intro segs
  induction segs with
  | nil => intro h; rfl
  | cons s rest ih =>
    intro h
    match rest, ih with
    | [], _ =>
      rw [show joinAmp [s] = s from rfl]
      rw [parse_qsl, splitAmp_no_amp s.data (h s (List.mem_cons_self s []))]
      rfl
    | r :: rest0, ih =>
      rw [show joinAmp (s :: r :: rest0) = s ++ "&" ++ joinAmp (r :: rest0) from rfl]
      rw [parse_qsl]
      have hdata : (s ++ "&" ++ joinAmp (r :: rest0)).data =
          s.data ++ '&' :: (joinAmp (r :: rest0)).data := by
        rw [String.data_append, String.data_append, List.append_assoc]
        rfl
      rw [hdata]
      rw [splitAmp_append_amp s.data _ (h s (List.mem_cons_self s _))]
      rw [List.filterMap_cons, List.filterMap_cons]
      have hrest := ih (fun t ht => h t (List.mem_cons_of_mem s ht))
      rw [parse_qsl] at hrest
      rw [hrest]

/-- Helper: the in-place value update of `upsertParam` preserves the key
column. -/
theorem keys_map_update (acc : List (String × List String)) (x : String × String) :
    (acc.map (fun e => if e.1 = x.1 then (e.1, e.2 ++ [x.2]) else e)).map Prod.fst =
      acc.map Prod.fst := by
  rw [List.map_map]
  apply List.map_congr_left
  intro e he
  by_cases h : e.1 = x.1 <;> simp [h]

/-- Helper: a key is in the dict after `upsertParam` iff it was there or is
the inserted pair's key. -/
theorem mem_upsert_keys (acc : List (String × List String)) (x : String × String)
    (key : String) :
    key ∈ (upsertParam acc x).map Prod.fst ↔
      (key ∈ acc.map Prod.fst ∨ key = x.1) := by
  rw [upsertParam]
  split_ifs with h
  · rw [keys_map_update]
    constructor
    · exact Or.inl
    · rintro (hm | rfl)
      · exact hm
      · exact List.elem_iff.mp h
  · simp [List.mem_append]

/-- Helper: key-filtering commutes with the in-place value update, the
update touching only values. -/
theorem filter_map_update (P : String → Bool) (x : String × String) :
    ∀ acc : List (String × List String),
      ((acc.map (fun e => if e.1 = x.1 then (e.1, e.2 ++ [x.2]) else e)).filter
        (fun kv => P kv.1)) =
      (acc.filter (fun kv => P kv.1)).map
        (fun e => if e.1 = x.1 then (e.1, e.2 ++ [x.2]) else e) := by
  intro acc
  induction acc with
  | nil => rfl
  | cons e rest ih =>
    simp only [List.map_cons, List.filter_cons]
    have hge : (if e.1 = x.1 then (e.1, e.2 ++ [x.2]) else e).1 = e.1 := by
      by_cases hk : e.1 = x.1 <;> simp [hk]
    rw [hge]
    by_cases hP : P e.1 = true
    · rw [if_pos hP, if_pos hP, List.map_cons, ih]
    · rw [if_neg hP, if_neg hP]
      exact ih

/-- Helper: upserting a filtered-out key leaves the key-filtered dict
unchanged. -/
theorem filter_upsert_falseKey (P : String → Bool)
    (acc : List (String × List String)) (x : String × String)
    (hx : P x.1 = false) :
    (upsertParam acc x).filter (fun kv => P kv.1) =
      acc.filter (fun kv => P kv.1) := by
  rw [upsertParam]
  split_ifs with h
  · rw [filter_map_update]
    trans (acc.filter (fun kv => P kv.1)).map id
    · apply List.map_congr_left
      intro e he
      have hPe : P e.1 = true := by
        have := List.of_mem_filter he
        simpa using this
      have hne : e.1 ≠ x.1 := fun hex => by
        rw [hex, hx] at hPe
        exact absurd hPe (by simp)
      simp [hne]
    · exact List.map_id _
  · rw [List.filter_append]
    simp [hx]

/-- Helper: the key-filtered dict after the grouping fold depends on the
accumulator only through its key-filtered part and its surviving key set. -/
theorem foldl_upsert_filter_congr (P : String → Bool) :
    ∀ (l : List (String × String)) (acc acc' : List (String × List String)),
      acc.filter (fun kv => P kv.1) = acc'.filter (fun kv => P kv.1) →
      (∀ key, P key = true →
        (key ∈ acc.map Prod.fst ↔ key ∈ acc'.map Prod.fst)) →
      (l.foldl upsertParam acc).filter (fun kv => P kv.1) =
        (l.foldl upsertParam acc').filter (fun kv => P kv.1) := by
  intro l
  induction l with
  | nil => intro acc acc' h1 h2; simpa using h1
  | cons x rest ih =>
    intro acc acc' h1 h2
    rw [List.foldl_cons, List.foldl_cons]
    apply ih
    · by_cases hPx : P x.1 = true
      · by_cases hmem : x.1 ∈ acc.map Prod.fst
        · have hmem' : x.1 ∈ acc'.map Prod.fst := (h2 x.1 hPx).mp hmem
          rw [upsertParam, if_pos (List.elem_iff.mpr hmem),
            upsertParam, if_pos (List.elem_iff.mpr hmem')]
          rw [filter_map_update, filter_map_update, h1]
        · have hmem' : x.1 ∉ acc'.map Prod.fst := fun hm => hmem ((h2 x.1 hPx).mpr hm)
          rw [upsertParam, if_neg (fun hc => hmem (List.elem_iff.mp hc)),
            upsertParam, if_neg (fun hc => hmem' (List.elem_iff.mp hc))]
          rw [List.filter_append, List.filter_append, h1]
      · have hx : P x.1 = false := by revert hPx; cases P x.1 <;> simp
        rw [filter_upsert_falseKey P acc x hx, filter_upsert_falseKey P acc' x hx, h1]
    · intro key hP
      rw [mem_upsert_keys, mem_upsert_keys]
      rw [h2 key hP]

/-- Helper: inserting a pair whose key is filtered out does not change the
key-filtered grouped dict. -/
theorem groupPairs_filter_insert (P : String → Bool) (k : String) (v : String)
    (hk : P k = false) (l1 l2 : List (String × String)) :
    (groupPairs (l1 ++ (k, v) :: l2)).filter (fun kv => P kv.1) =
      (groupPairs (l1 ++ l2)).filter (fun kv => P kv.1) := by
  rw [groupPairs, groupPairs, List.foldl_append, List.foldl_append, List.foldl_cons]
  apply foldl_upsert_filter_congr
  · exact filter_upsert_falseKey P _ _ hk
  · intro key hP
    rw [mem_upsert_keys]
    constructor
    · rintro (h | rfl)
      · exact h
      · rw [hk] at hP
        exact absurd hP (by simp)
    · exact Or.inl

/-- Helper: stripping trailing slashes absorbs one appended slash. -/
theorem rstripSlashes_append_slash (s : String) :
    rstripSlashes (s ++ "/") = rstripSlashes s := by
  rw [rstripSlashes, rstripSlashes, String.data_append]
  rw [show ("/" : String).data = ['/'] from rfl]
  rw [List.reverse_append]
  simp [List.dropWhile_cons]

/-- Helper: `joinAmp` of the empty segment list is the empty query. -/
theorem joinAmp_nil_if (q : List String) :
    (if q = [] then "" else joinAmp q) = joinAmp q := by
  by_cases h : q = [] <;> simp [h, joinAmp]

/-- Helper: two well-formed structured URLs with the same scheme, host and
path and the same tracking-filtered parameter dict normalize identically. -/
theorem normalize_buildUrl_congr (scheme host path : String)
    (q1 q2 : List String)
    (hwf1 : wfUrlParts scheme host path q1) (hwf2 : wfUrlParts scheme host path q2)
    (hfil : (parse_qs (joinAmp q1)).filter
        (fun kv => !(DedupService.TRACKING_PARAMS.contains (pyLower kv.1))) =
      (parse_qs (joinAmp q2)).filter
        (fun kv => !(DedupService.TRACKING_PARAMS.contains (pyLower kv.1)))) :
    DedupService.normalize_url (buildUrl scheme host path q1) =
      DedupService.normalize_url (buildUrl scheme host path q2) := by
  rw [DedupService.normalize_url, DedupService.normalize_url]
  rw [urlparse_buildUrl scheme host path q1 hwf1,
    urlparse_buildUrl scheme host path q2 hwf2]
  simp only
  rw [joinAmp_nil_if, joinAmp_nil_if]
  rw [hfil]

/-- C9 amended: `url_hash` (the 16-character digest prefix of the
normalized URL, for any digest function in place of SHA-256) is invariant
under inserting an allow-listed tracking query parameter anywhere in the
query of a well-formed URL; and it is invariant under a trailing slash on
the path provided no non-tracking query parameter survives (the
counterexample shows the trailing-slash invariance fails when one does). -/
theorem C9_url_hash_invariance :
    (∀ (digest : String → String) (scheme host path seg : String)
        (s1 s2 : List String),
      wfUrlParts scheme host path (s1 ++ [seg] ++ s2) →
      (∀ kv : String × String, parseSegment seg.data = some kv →
        pyLower kv.1 ∈ DedupService.TRACKING_PARAMS) →
      DedupService.create_hash_with digest
          (buildUrl scheme host path (s1 ++ [seg] ++ s2)) =
        DedupService.create_hash_with digest
          (buildUrl scheme host path (s1 ++ s2)))
    ∧ (∀ (digest : String → String) (scheme host path : String)
        (q : List String),
      wfUrlParts scheme host path q →
      (parse_qs (joinAmp q)).filter
        (fun kv => !(DedupService.TRACKING_PARAMS.contains (pyLower kv.1))) = [] →
      DedupService.create_hash_with digest (buildUrl scheme host (path ++ "/") q) =
        DedupService.create_hash_with digest (buildUrl scheme host path q)) := by
  constructor
  · intro digest scheme host path seg s1 s2 hwf htrack
    obtain ⟨hws, hwh, hwp0, hwp, hwq⟩ := hwf
    have hwf2 : wfUrlParts scheme host path (s1 ++ s2) := by
      refine ⟨hws, hwh, hwp0, hwp, ?_⟩
      intro s hs
      apply hwq
      rcases List.mem_append.mp hs with h | h
      · exact List.mem_append_left _ (List.mem_append_left _ h)
      · exact List.mem_append_right _ h
    have hnamp : ∀ s ∈ s1 ++ [seg] ++ s2, '&' ∉ s.data := by
      intro s hs hm
      exact (hwq s hs '&' hm).1 rfl
    have hnamp2 : ∀ s ∈ s1 ++ s2, '&' ∉ s.data := by
      intro s hs hm
      refine (hwq s ?_ '&' hm).1 rfl
      rcases List.mem_append.mp hs with h | h
      · exact List.mem_append_left _ (List.mem_append_left _ h)
      · exact List.mem_append_right _ h
    rw [DedupService.create_hash_with, DedupService.create_hash_with]
    rw [normalize_buildUrl_congr scheme host path _ _ ⟨hws, hwh, hwp0, hwp, hwq⟩ hwf2 ?hfil]
    case hfil =>
      rw [parse_qs, parse_qs]
      rw [parse_qsl_joinAmp _ hnamp, parse_qsl_joinAmp _ hnamp2]
      rw [List.filterMap_append, List.filterMap_append, List.filterMap_append]
      cases hseg : parseSegment seg.data with
      | none =>
        rw [show List.filterMap (fun s => parseSegment s.data) [seg] = [] by
          simp [List.filterMap_cons, hseg]]
        rw [List.append_nil]
      | some kv =>
        rw [show List.filterMap (fun s => parseSegment s.data) [seg] = [kv] by
          simp [List.filterMap_cons, hseg]]
        have hk : (fun key => !(DedupService.TRACKING_PARAMS.contains (pyLower key))) kv.1 = false := by
          have hmem := htrack kv hseg
          simp [hmem]
        have := groupPairs_filter_insert
          (fun key => !(DedupService.TRACKING_PARAMS.contains (pyLower key)))
          kv.1 kv.2 hk
          (List.filterMap (fun s => parseSegment s.data) s1)
          (List.filterMap (fun s => parseSegment s.data) s2)
        simpa using this
  · intro digest scheme host path q hwf hfil
    obtain ⟨hws, hwh, hwp0, hwp, hwq⟩ := hwf
    have hwfs : wfUrlParts scheme host (path ++ "/") q := by
      refine ⟨hws, hwh, ?_, ?_, hwq⟩
      · right
        rcases hwp0 with h | h
        · rw [h]
          rfl
        · rw [String.data_append]
          cases hpd : path.data with
          | nil => rw [hpd] at h; simp at h
          | cons d ds =>
            rw [hpd] at h
            simp only [List.head?] at h ⊢
            rw [List.cons_append]
            simpa using h
      · intro c hc
        rw [String.data_append] at hc
        rcases List.mem_append.mp hc with h | h
        · exact hwp c h
        · have : c = '/' := by simpa using h
          rw [this]
          exact ⟨by decide, by decide⟩
    rw [DedupService.create_hash_with, DedupService.create_hash_with]
    rw [DedupService.normalize_url, DedupService.normalize_url]
    rw [urlparse_buildUrl scheme host (path ++ "/") q hwfs,
      urlparse_buildUrl scheme host path q ⟨hws, hwh, hwp0, hwp, hwq⟩]
    simp only
    rw [joinAmp_nil_if, hfil]
    simp only [ne_eq, not_true_eq_false, if_false]
    rw [show pyLower scheme ++ "://" ++ host ++ (path ++ "/") =
      pyLower scheme ++ "://" ++ host ++ path ++ "/" by
        simp [String.append_assoc]]
    rw [rstripSlashes_append_slash]

/-- C9 amended witness: inserting `utm_source=x` into `?a=1` leaves the hash
unchanged, and appending a path slash under a tracking-only query leaves the
hash unchanged (digest instantiated with the identity function). -/
theorem C9_url_hash_invariance_witness :
    DedupService.create_hash_with (fun s => s)
        (buildUrl "https" "ex.com" "/p" (["a=1"] ++ ["utm_source=x"] ++ [])) =
      DedupService.create_hash_with (fun s => s)
        (buildUrl "https" "ex.com" "/p" (["a=1"] ++ [])) ∧
    DedupService.create_hash_with (fun s => s)
        (buildUrl "https" "ex.com" ("/p" ++ "/") ["utm_source=x"]) =
      DedupService.create_hash_with (fun s => s)
        (buildUrl "https" "ex.com" "/p" ["utm_source=x"]) := by
  constructor
  · refine C9_url_hash_invariance.1 (fun s => s) "https" "ex.com" "/p"
      "utm_source=x" ["a=1"] []
      ⟨by decide, by decide, by decide, by decide, by decide⟩ ?_
    intro kv h
    have heq : some (("utm_source" : String), ("x" : String)) = some kv :=
      (show parseSegment ("utm_source=x" : String).data =
        some ("utm_source", "x") from rfl).symm.trans h
    obtain rfl := Option.some.inj heq
    decide
  · exact C9_url_hash_invariance.2 (fun s => s) "https" "ex.com" "/p"
      ["utm_source=x"]
      ⟨by decide, by decide, by decide, by decide, by decide⟩ (by decide)

/-- C9 counterexample: `http://a/p/?x=1` and `http://a/p?x=1` differ only by
a trailing slash on the path, yet they normalize to different strings — the
surviving query keeps `rstrip("/")` from reaching the slash — so their
url-hashes (digest prefix of the normalized URL; exhibited with the identity
digest) differ. -/
theorem C9_trailing_slash_with_query_changes_hash :
    DedupService.normalize_url "http://a/p/?x=1" ≠
      DedupService.normalize_url "http://a/p?x=1" ∧
    DedupService.create_hash_with (fun s => s) "http://a/p/?x=1" ≠
      DedupService.create_hash_with (fun s => s) "http://a/p?x=1" :=
  ⟨by decide, by decide⟩
